import Mathlib

/-!
Verification of the reconciliation/sync engine of the gdu-backend-sync
repository (src/firestoreService.js, src/syncService.js and the Google
Drive service file).  The document store is modelled as keyed lists of
records; merge-writes, batch commits and the run-guard state machine are
translated directly from the JavaScript source.  Timestamps are Nat
parameters (the value of new Date() at the relevant call site).
-/

namespace GduSync

/-- Firestore collection names, from COLLECTIONS in config.js. -/
def SHARED_DRIVES : String := "shared_drives"

/-- Collection name for folder documents (config.js COLLECTIONS.FOLDERS). -/
def FOLDERS : String := "folders"

/-- Collection name for manager documents (config.js COLLECTIONS.DRIVE_MANAGERS). -/
def DRIVE_MANAGERS : String := "drive_managers"

/-- A shared drive as returned by the Drive API listing
(googleDriveService getAllSharedDrives, fields id, name, kind, colorRgb,
backgroundImageFile, capabilities, createdTime, hidden, restrictions).
Fields that the API may omit are Options; capability/restriction maps are
association lists of boolean flags. -/
structure ApiDrive where
  id : String
  name : String
  kind : String := "drive#drive"
  colorRgb : Option String := none
  backgroundImageFile : Option String := none
  capabilities : Option (List (String × Bool)) := none
  createdTime : Nat := 0
  hidden : Option Bool := none
  restrictions : Option (List (String × Bool)) := none
deriving Repr, DecidableEq

/-- A stored drive document in the shared_drives collection
(fields written by firestoreService.js syncSharedDrives lines 123-144,
plus the frontend-created metadata that a merge write preserves). -/
structure DriveRec where
  id : String
  name : String
  kind : String
  colorRgb : Option String
  backgroundImageFile : Option String
  capabilities : List (String × Bool)
  createdTime : Nat
  hidden : Bool
  restrictions : List (String × Bool)
  synced_at : Nat
  synced_by_backend : Bool
  created_by_frontend : Bool := false
  created_at : Option Nat := none
deriving Repr, DecidableEq

/-- The document that syncSharedDrives stages for one API drive
(firestoreService.js lines 123-147).  The update sets every schema field
except created_by_frontend / created_at, which it sets only when the
existing document is frontend-created; because the write is a merge
( batch.set with merge true ), fields absent from the update keep their
stored values, which is why the non-frontend branch below copies the
existing values forward unchanged. -/
def driveUpsertData (existing : Option DriveRec) (d : ApiDrive) (now : Nat) : DriveRec :=
  let base : DriveRec :=
    { id := d.id
      name := d.name
      kind := d.kind
      colorRgb := d.colorRgb
      backgroundImageFile := d.backgroundImageFile
      capabilities := d.capabilities.getD []
      createdTime := d.createdTime
      hidden := d.hidden.getD false
      restrictions := d.restrictions.getD []
      synced_at := now
      synced_by_backend := true
      created_by_frontend := false
      created_at := none }
  match existing with
  | none => base
  | some e =>
      if e.created_by_frontend then
        { base with created_by_frontend := true, created_at := e.created_at }
      else
        { base with created_by_frontend := e.created_by_frontend, created_at := e.created_at }

/-- Look a document up by id in a collection modelled as a list. -/
def findDoc (m : List DriveRec) (i : String) : Option DriveRec :=
  m.find? (fun r => r.id == i)

/-- Write a document into a keyed collection: overwrite the document with
the same key if present, else append.  Generic over the key so the same
model serves drives and folders. -/
def setKeyed {α : Type} (key : α → String) (m : List α) (r : α) : List α :=
  if m.any (fun x => key x == key r) then
    m.map (fun x => if key x == key r then r else x)
  else
    m ++ [r]

/-- One staged operation of a Firestore WriteBatch. -/
inductive FsOp where
  | del (collection : String) (docId : String)
  | setMerge (collection : String) (docId : String)
  | setDoc (collection : String) (docId : String)
deriving Repr, DecidableEq

/-- The commit discipline of syncSharedDrives / syncFoldersForDrive: stage
operations into the batch, commit whenever the count reaches 500, and
flush the final partial batch.  The committed batches are therefore the
consecutive chunks of 500 of the staged operation sequence. -/
def batchChunks : List FsOp → List (List FsOp)
  | [] => []
  | a :: l => (a :: l).take 500 :: batchChunks ((a :: l).drop 500)
termination_by ops => ops.length
decreasing_by
  simp only [List.length_drop, List.length_cons]
  omega

/-- Result of one syncSharedDrives call: the collection afterwards, the ids
deleted, the committed batches and the returned counters. -/
structure DriveSyncResult where
  mirror : List DriveRec
  drivesToDelete : List String
  batches : List (List FsOp)
  processed : Nat
  deleted : Nat
deriving Repr, DecidableEq

/-- firestoreService.js syncSharedDrives (lines 67-178): read the existing
collection, delete every stored id absent from the fresh API listing, then
merge-upsert every API drive (preserved fields computed against the
snapshot read at the start), committing in batches of at most 500. -/
def syncSharedDrives (drivesFromAPI : List ApiDrive) (existingMirror : List DriveRec)
    (now : Nat) : DriveSyncResult :=
  let existingDriveIds := existingMirror.map (fun r => r.id)
  let currentDriveIds := drivesFromAPI.map (fun d => d.id)
  let drivesToDelete := existingDriveIds.filter (fun i => !(currentDriveIds.contains i))
  let deleteOps := drivesToDelete.map (fun i => FsOp.del SHARED_DRIVES i)
  let upsertOps := drivesFromAPI.map (fun d => FsOp.setMerge SHARED_DRIVES d.id)
  let mirrorAfterDelete := existingMirror.filter (fun r => !(drivesToDelete.contains r.id))
  let finalMirror := drivesFromAPI.foldl
    (fun m d => setKeyed (fun r => r.id) m (driveUpsertData (findDoc existingMirror d.id) d now))
    mirrorAfterDelete
  { mirror := finalMirror
    drivesToDelete := drivesToDelete
    batches := batchChunks (deleteOps ++ upsertOps)
    processed := drivesFromAPI.length
    deleted := drivesToDelete.length }

/-- A folder as returned by the Drive API file listing (fields id, name,
parents, mimeType, createdTime, modifiedTime), plus the full_path that
calculateFolderPaths annotates before the Firestore sync consumes it. -/
structure ApiFolder where
  id : String
  name : String
  parents : List String := []
  mimeType : String := "application/vnd.google-apps.folder"
  createdTime : Nat := 0
  modifiedTime : Nat := 0
  full_path : Option String := none
deriving Repr, DecidableEq

/-- A stored folder document in the folders collection
(fields written by firestoreService.js syncFoldersForDrive lines 195-215). -/
structure FolderRec where
  id : String
  name : String
  driveId : String
  parent_id : Option String
  full_path : String
  mimeType : String
  createdTime : Nat
  modifiedTime : Nat
  synced_at : Nat
  synced_by_backend : Bool
  created_by_frontend : Bool := false
  created_at : Option Nat := none
deriving Repr, DecidableEq

/-- The document syncFoldersForDrive stages for one API folder
(firestoreService.js lines 195-216).  parent_id is the first parent unless
it is the drive id (root boundary), in which case null; a missing parents
list also yields null.  Like the drive upsert, the merge write preserves
created_by_frontend and created_at of an existing document (re-asserted
explicitly when the stored document is frontend-created, untouched by the
merge otherwise). -/
def folderUpsertData (existing : Option FolderRec) (driveId : String) (f : ApiFolder)
    (now : Nat) : FolderRec :=
  let base : FolderRec :=
    { id := f.id
      name := f.name
      driveId := driveId
      parent_id :=
        match f.parents.head? with
        | none => none
        | some p => if p == driveId then none else some p
      full_path := f.full_path.getD "/"
      mimeType := f.mimeType
      createdTime := f.createdTime
      modifiedTime := f.modifiedTime
      synced_at := now
      synced_by_backend := true
      created_by_frontend := false
      created_at := none }
  match existing with
  | none => base
  | some e =>
      if e.created_by_frontend then
        { base with created_by_frontend := true, created_at := e.created_at }
      else
        { base with created_by_frontend := e.created_by_frontend, created_at := e.created_at }

/-- Look a folder document up by id. -/
def findFolder (m : List FolderRec) (i : String) : Option FolderRec :=
  m.find? (fun r => r.id == i)

/-- Result of one syncFoldersForDrive call. -/
structure FolderSyncResult where
  mirror : List FolderRec
  batches : List (List FsOp)
  count : Nat
deriving Repr, DecidableEq

/-- firestoreService.js syncFoldersForDrive (lines 183-240): merge-upsert
every fetched folder, committing in batches of at most 500; no deletion of
folders missing from this cycle.  Each per-folder existence read is
modelled against the collection as it stood when the call began (each
distinct folder id is read before any write to it lands). -/
def syncFoldersForDrive (driveId : String) (foldersFromAPI : List ApiFolder)
    (existingMirror : List FolderRec) (now : Nat) : FolderSyncResult :=
  let ops := foldersFromAPI.map (fun f => FsOp.setMerge FOLDERS f.id)
  let finalMirror := foldersFromAPI.foldl
    (fun m f => setKeyed (fun r => r.id) m
      (folderUpsertData (findFolder existingMirror f.id) driveId f now))
    existingMirror
  { mirror := finalMirror
    batches := batchChunks ops
    count := foldersFromAPI.length }

/-- A permission entry as fed to syncManagersForDrive: either a filtered
Drive API permission (emailAddress, id) or a locally built manager record
(email, permissionId), so both field spellings are optional. -/
structure ApiManager where
  id : String := ""
  email : Option String := none
  emailAddress : Option String := none
  role : String := "organizer"
  type : String := "user"
  permissionId : Option String := none
  displayName : Option String := none
  photoLink : Option String := none
deriving Repr, DecidableEq

/-- A stored manager document in the drive_managers collection.  docId is
the mirror-generated document id (Firestore doc() with no argument). -/
structure ManagerRec where
  docId : Nat
  driveId : String
  driveName : String
  email : Option String
  role : String
  type : String
  permissionId : String
  displayName : Option String
  photoLink : Option String
  synced_at : Nat
  synced_by_backend : Bool
deriving Repr, DecidableEq

/-- The document syncManagersForDrive stages for one incoming manager
(firestoreService.js lines 264-277): email falls back from email to
emailAddress, permissionId falls back from permissionId to the provider
permission id. -/
def newManagerRec (driveId driveName : String) (docId : Nat) (m : ApiManager)
    (now : Nat) : ManagerRec :=
  { docId := docId
    driveId := driveId
    driveName := driveName
    email := m.email.orElse (fun _ => m.emailAddress)
    role := m.role
    type := m.type
    permissionId := m.permissionId.getD m.id
    displayName := m.displayName
    photoLink := m.photoLink
    synced_at := now
    synced_by_backend := true }

/-- Result of one syncManagersForDrive call. -/
structure ManagerSyncResult where
  mirror : List ManagerRec
  batches : List (List FsOp)
  count : Nat
deriving Repr, DecidableEq

/-- firestoreService.js syncManagersForDrive (lines 245-288): query the
managers of this drive flagged synced_by_backend, stage a delete for every
one of them and a set for every incoming manager into ONE WriteBatch, and
commit that single batch once — there is no 500-operation chunking in this
function.  New documents get fresh generated ids, modelled as freshBase,
freshBase+1, ... where freshBase lies above every existing docId (Firestore
doc() never collides with an existing document). -/
def syncManagersForDrive (driveId driveName : String) (managersFromAPI : List ApiManager)
    (existingMirror : List ManagerRec) (now : Nat) (freshBase : Nat) : ManagerSyncResult :=
  let toDelete := existingMirror.filter
    (fun r => r.driveId == driveId && r.synced_by_backend)
  let kept := existingMirror.filter
    (fun r => !(r.driveId == driveId && r.synced_by_backend))
  let newRecs := managersFromAPI.enum.map
    (fun p => newManagerRec driveId driveName (freshBase + p.1) p.2 now)
  let deleteOps := toDelete.map (fun r => FsOp.del DRIVE_MANAGERS (toString r.docId))
  let insertOps := newRecs.map (fun r => FsOp.setDoc DRIVE_MANAGERS (toString r.docId))
  { mirror := kept ++ newRecs
    batches := [deleteOps ++ insertOps]
    count := managersFromAPI.length }

/-- The sync_status/current singleton document
(firestoreService.js getSyncStatus / updateSyncStatus). -/
structure SyncStatusDoc where
  status : String
  current_sync_id : Option String
  last_sync : Option Nat
  updated_at : Nat
deriving Repr, DecidableEq

/-- firestoreService.js updateSyncStatus (lines 382-406): a merge write
that always sets status and updated_at, sets current_sync_id when a sync
id is passed, and — only when status is exactly completed or failed — sets
last_sync to now and clears current_sync_id. -/
def updateSyncStatus (doc : SyncStatusDoc) (status : String) (syncId : Option String)
    (now : Nat) : SyncStatusDoc :=
  let d1 : SyncStatusDoc := { doc with status := status, updated_at := now }
  let d2 : SyncStatusDoc :=
    match syncId with
    | some sid => { d1 with current_sync_id := some sid }
    | none => d1
  if status == "completed" || status == "failed" then
    { d2 with last_sync := some now, current_sync_id := none }
  else
    d2

/-- In-memory run guard of the SyncService instance
(syncService.js constructor: isRunning, currentSyncId). -/
structure SvcState where
  isRunning : Bool
  currentSyncId : Option String
deriving Repr, DecidableEq

/-- Entry guard of syncService.js performSync (lines 43-53): if a run is
already in progress the call throws immediately, leaving the instance
state untouched; otherwise it claims the guard and installs a fresh run
id.  The thrown message is the distinguishable already-running condition. -/
def performSyncEntry (s : SvcState) (freshId : String) : SvcState × Except String Unit :=
  if s.isRunning then
    (s, Except.error "Ya hay una sincronización en progreso")
  else
    ({ isRunning := true, currentSyncId := some freshId }, Except.ok ())

/-- Entry guard of syncService.js performIncrementalSync (lines 182-190):
identical check and message. -/
def performIncrementalSyncEntry (s : SvcState) (freshId : String) :
    SvcState × Except String Unit :=
  if s.isRunning then
    (s, Except.error "Ya hay una sincronización en progreso")
  else
    ({ isRunning := true, currentSyncId := some freshId }, Except.ok ())

/-- googleDriveService getSubfoldersRecursively (drive service file lines
398-418): for each parent folder, fetch its direct non-trashed subfolders
(modelled by the oracle children, keyed by folder id), append them, and if
any were found recurse into them, appending the deeper results.  The JS has
no visited set and no depth bound; fuel counts the nested recursion depth
actually used, so a diverging run is one for which no fuel returns a
value.  The loop over the parent list itself consumes no fuel. -/
def getSubfoldersRecursively (children : String → List ApiFolder) :
    Nat → List ApiFolder → Option (List ApiFolder)
  | _, [] => some []
  | fuel, f :: rest =>
      (if (children f.id).isEmpty then some []
       else
         match fuel with
         | 0 => none
         | fuel' + 1 => getSubfoldersRecursively children fuel' (children f.id)).bind
        fun deeper =>
          (getSubfoldersRecursively children fuel rest).bind
            fun restAll => some (children f.id ++ deeper ++ restAll)
termination_by fuel l => (fuel, l.length)

/-- A folder together with the mutable full_path slot used by
calculateFolderPaths (the folderMap entries). -/
structure PathFolder where
  folder : ApiFolder
  full_path : Option String
deriving Repr, DecidableEq

/-- Insert a folder into the folderMap (JS Map.set: overwrite in place if
the id is present, else append; full_path starts null). -/
def mapSet (m : List PathFolder) (f : ApiFolder) : List PathFolder :=
  if m.any (fun p => p.folder.id == f.id) then
    m.map (fun p => if p.folder.id == f.id then { folder := f, full_path := none } else p)
  else
    m ++ [{ folder := f, full_path := none }]

/-- Build the folderMap of calculateFolderPaths (lines 463-471). -/
def buildFolderMap (folders : List ApiFolder) : List PathFolder :=
  folders.foldl mapSet []

/-- Look a folderMap entry up by id. -/
def mapGet (m : List PathFolder) (i : String) : Option PathFolder :=
  m.find? (fun p => p.folder.id == i)

/-- Record a computed full_path for one id in the folderMap. -/
def mapSetPath (m : List PathFolder) (i : String) (path : String) : List PathFolder :=
  m.map (fun p => if p.folder.id == i then { p with full_path := some path } else p)

/-- The inner calculatePath closure of calculateFolderPaths (drive service
file lines 474-497), with the shared folderMap threaded explicitly: return
the computed path and the updated map.  A visited id or an unknown id
yields the defensive "/" without touching the map; a memoized entry is
returned as is; otherwise the folder is marked visited, the parent chain
is resolved (root boundary: no parent or parent equal to the drive id) and
the result is memoized.  The recursive call receives a copy of the visited
set extended with this folder, exactly as the JS passes new Set(visited)
after visited.add.  fuel bounds the recursion depth; the termination
theorem shows that unvisited-count + 1 fuel always suffices, which is how
the JS recursion, bounded by the visited set, terminates. -/
def calculatePath (driveId : String) :
    Nat → List PathFolder → List String → String → Option (String × List PathFolder)
  | 0, _, _, _ => none
  | fuel + 1, m, visited, folderId =>
      if visited.contains folderId then some ("/", m)
      else
        match mapGet m folderId with
        | none => some ("/", m)
        | some p =>
            match p.full_path with
            | some path => some (path, m)
            | none =>
                match p.folder.parents.head? with
                | none =>
                    let path := "/" ++ p.folder.name
                    some (path, mapSetPath m folderId path)
                | some parentId =>
                    if parentId == driveId then
                      let path := "/" ++ p.folder.name
                      some (path, mapSetPath m folderId path)
                    else
                      match calculatePath driveId fuel m (folderId :: visited) parentId with
                      | none => none
                      | some (parentPath, m') =>
                          let path := parentPath ++ "/" ++ p.folder.name
                          some (path, mapSetPath m' folderId path)

/-- calculateFolderPaths (drive service file lines 462-505): build the
folderMap, run calculatePath for every input folder (mutations persist in
the shared map), and return the map values.  The fuel folders.length + 1
is shown sufficient by the termination theorem, so the none branch below
is never taken. -/
def calculateFolderPaths (folders : List ApiFolder) (driveId : String) : List PathFolder :=
  let m0 := buildFolderMap folders
  folders.foldl
    (fun m f =>
      match calculatePath driveId (folders.length + 1) m [] f.id with
      | some pr => pr.2
      | none => m)
    m0

/-- googleDriveService getFoldersFromDrive (lines 341-395): list the direct
folder children of the drive root, recursively collect all subfolders, and
annotate the concatenated list with full paths. -/
def getFoldersFromDrive (children : String → List ApiFolder) (driveId : String)
    (fuel : Nat) : Option (List PathFolder) :=
  let allFolders := children driveId
  match getSubfoldersRecursively children fuel allFolders with
  | some subs => some (calculateFolderPaths (allFolders ++ subs) driveId)
  | none => none

/-- The recursive subfolder walk terminates on the given provider data and
roots: some recursion depth returns a value. -/
def SubfoldersTerminate (children : String → List ApiFolder)
    (roots : List ApiFolder) : Prop :=
  ∃ fuel, (getSubfoldersRecursively children fuel roots).isSome

/-- The remote provider as the sync run sees it: the authoritative drive
listing plus, per drive id, the outcome of the folder fetch (already
path-annotated, as getFoldersFromDrive returns it) and of the manager
fetch.  An Except.error models the per-drive fetch throwing. -/
structure Provider where
  drives : List ApiDrive
  foldersFor : String → Except String (List ApiFolder)
  managersFor : String → Except String (List ApiManager)

/-- One drive with its fetched folders and managers attached
(performFullSync attaches drive.folders / drive.managers). -/
structure DriveBundle where
  drive : ApiDrive
  folders : List ApiFolder
  managers : List ApiManager
deriving Repr, DecidableEq

/-- The run statistics accumulated by performFullSync. -/
structure SyncStats where
  drives_count : Nat
  folders_count : Nat
  managers_count : Nat
  errors : List String
deriving Repr, DecidableEq

/-- The per-drive body of performFullSync (drive service file lines
579-612): fetch folders and managers; on a failure of either fetch the
drive contributes empty folders and managers and one error string naming
the drive, and processing continues.  When both fetches fail the recorded
message is the folder fetch's (the two run concurrently; the first
rejection wins, and only the single-failure cases are relied on below). -/
def processDrive (P : Provider) (d : ApiDrive) : DriveBundle × Option String :=
  match P.foldersFor d.id, P.managersFor d.id with
  | Except.ok fs, Except.ok ms =>
      ({ drive := d, folders := fs, managers := ms }, none)
  | Except.error e, _ =>
      ({ drive := d, folders := [], managers := [] },
        some ("Error procesando unidad " ++ d.name ++ ": " ++ e))
  | Except.ok _, Except.error e =>
      ({ drive := d, folders := [], managers := [] },
        some ("Error procesando unidad " ++ d.name ++ ": " ++ e))

/-- googleDriveService performFullSync (lines 562-625): list all drives,
process each drive in order (error-isolated per drive), and return the
annotated drives with the accumulated statistics; drives_count is the
length of the drive listing. -/
def performFullSync (P : Provider) : List DriveBundle × SyncStats :=
  let results := P.drives.map (processDrive P)
  let bundles := results.map Prod.fst
  (bundles,
    { drives_count := P.drives.length
      folders_count := (bundles.map (fun b => b.folders.length)).sum
      managers_count := (bundles.map (fun b => b.managers.length)).sum
      errors := results.filterMap Prod.snd })

/-- The mirrored document state across the three data collections. -/
structure Mirror where
  drives : List DriveRec
  folders : List FolderRec
  managers : List ManagerRec
deriving Repr, DecidableEq

/-- syncService.js syncToFirestore (lines 138-178): reconcile the drive
collection against the full fetched listing, then for each drive in order
sync its folders and replace its managers.  freshBase seeds the generated
manager document ids, advanced past each drive's inserts. -/
def syncToFirestore (bundles : List DriveBundle) (m : Mirror) (now : Nat)
    (freshBase : Nat) : Mirror :=
  let dres := syncSharedDrives (bundles.map (fun b => b.drive)) m.drives now
  let step := fun (acc : List FolderRec × List ManagerRec × Nat) (b : DriveBundle) =>
    let fres := syncFoldersForDrive b.drive.id b.folders acc.1 now
    let mres := syncManagersForDrive b.drive.id b.drive.name b.managers acc.2.1 now acc.2.2
    (fres.mirror, mres.mirror, acc.2.2 + b.managers.length)
  let rest := bundles.foldl step (m.folders, m.managers, freshBase)
  { drives := dres.mirror, folders := rest.1, managers := rest.2.1 }

/-- The outcome performSync returns (syncService.js lines 103-108). -/
structure RunResult where
  success : Bool
  sync_id : String
  status : String
  stats : SyncStats
  mirror : Mirror
deriving Repr, DecidableEq

/-- The happy-path body of syncService.js performSync (lines 55-108) after
the guard and connectivity probe: fetch the full remote state, apply it to
the mirror, and pick the terminal status — completed_with_errors exactly
when the run's error list is non-empty, completed otherwise. -/
def performSyncRun (P : Provider) (m : Mirror) (now freshBase : Nat)
    (syncId : String) : RunResult :=
  let fetched := performFullSync P
  let m' := syncToFirestore fetched.1 m now freshBase
  let status := if fetched.2.errors.length > 0 then "completed_with_errors" else "completed"
  { success := true, sync_id := syncId, status := status, stats := fetched.2, mirror := m' }

/-- The identity of a manager record as the spec compares them:
email, role and provider permission id. -/
def managerKey (r : ManagerRec) : Option String × String × String :=
  (r.email, r.role, r.permissionId)

/-- The same identity computed from an incoming permission entry, with the
field fallbacks syncManagersForDrive applies. -/
def apiManagerKey (m : ApiManager) : Option String × String × String :=
  (m.email.orElse (fun _ => m.emailAddress), m.role, m.permissionId.getD m.id)

theorem filter_not_filter {α : Type} (p : α → Bool) (l : List α) :
    (l.filter fun a => !(p a)).filter p = [] := by
  induction l with
  | nil => rfl
  | cons a l ih => by_cases h : p a <;> simp [h, ih]

theorem syncManagersForDrive_mirror (d dn : String) (ms : List ApiManager)
    (mirror : List ManagerRec) (now fb : Nat) :
    (syncManagersForDrive d dn ms mirror now fb).mirror
      = mirror.filter (fun r => !(r.driveId == d && r.synced_by_backend))
        ++ ms.enum.map (fun p => newManagerRec d dn (fb + p.1) p.2 now) := rfl

/-- C2: a performSync or performIncrementalSync call made while a run is in
progress fails immediately with the distinguishable already-running error,
and the service state — including the first run's id — is returned
untouched. -/
theorem C2_mutual_exclusion (s : SvcState) (freshId freshId' : String)
    (h : s.isRunning = true) :
    performSyncEntry s freshId
        = (s, Except.error "Ya hay una sincronización en progreso")
    ∧ performIncrementalSyncEntry s freshId'
        = (s, Except.error "Ya hay una sincronización en progreso") := by
  simp [performSyncEntry, performIncrementalSyncEntry, h]

/-- Witness for C2 at a concrete in-progress state. -/
theorem C2_mutual_exclusion_witness :
    ({ isRunning := true, currentSyncId := some "run-1" } : SvcState).isRunning = true
    ∧ performSyncEntry { isRunning := true, currentSyncId := some "run-1" } "run-2"
        = ({ isRunning := true, currentSyncId := some "run-1" },
            Except.error "Ya hay una sincronización en progreso") :=
  ⟨rfl, (C2_mutual_exclusion
    { isRunning := true, currentSyncId := some "run-1" } "run-2" "run-3" rfl).1⟩

/-- A status document as it stands while a run is in progress. -/
def statusDocEx : SyncStatusDoc :=
  { status := "running", current_sync_id := some "run-1", last_sync := none, updated_at := 5 }

/-- C5 counterexample: a run that ends completed_with_errors (performSync
line 94 calls updateSyncStatus with that status and no sync id) neither
sets last_sync nor clears current_sync_id — the condition on line 396 of
firestoreService.js tests only for completed and failed. -/
theorem C5_counterexample :
    (updateSyncStatus statusDocEx "completed_with_errors" none 9).last_sync = none
    ∧ (updateSyncStatus statusDocEx "completed_with_errors" none 9).current_sync_id
        = some "run-1" := by
  exact ⟨rfl, rfl⟩

/-- C5 amended: last_sync is set (to the completion time) and
current_sync_id cleared exactly when the written status is completed or
failed; every other status — including the terminal
completed_with_errors — leaves last_sync unchanged, and when no sync id
accompanies it (as at the end of a run) leaves current_sync_id unchanged
as well.  last_sync is thus still set only on terminal statuses, but not
on all of them. -/
theorem C5_amended (doc : SyncStatusDoc) (status : String) (syncId : Option String)
    (now : Nat) :
    ((status = "completed" ∨ status = "failed") →
        (updateSyncStatus doc status syncId now).last_sync = some now
        ∧ (updateSyncStatus doc status syncId now).current_sync_id = none)
    ∧ (status ≠ "completed" → status ≠ "failed" →
        (updateSyncStatus doc status syncId now).last_sync = doc.last_sync)
    ∧ (status ≠ "completed" → status ≠ "failed" → syncId = none →
        (updateSyncStatus doc status syncId now).current_sync_id
          = doc.current_sync_id) := by
  refine ⟨?_, ?_, ?_⟩
  · rintro (rfl | rfl) <;> cases syncId <;> simp [updateSyncStatus]
  · intro h1 h2
    cases syncId <;> simp [updateSyncStatus, h1, h2]
  · intro h1 h2 h3
    subst h3
    simp [updateSyncStatus, h1, h2]

/-- Witness for C5 amended at a concrete completed run. -/
theorem C5_amended_witness :
    (updateSyncStatus statusDocEx "completed" none 9).last_sync = some 9
    ∧ (updateSyncStatus statusDocEx "completed" none 9).current_sync_id = none :=
  (C5_amended statusDocEx "completed" none 9).1 (Or.inl rfl)

/-- C4: after syncManagersForDrive, the backend-synced manager records of
that drive are exactly the supplied new set, in order, compared by email,
role and permissionId; records not flagged synced_by_backend survive
unchanged, as do the backend-synced records of every other drive. -/
theorem syncManagers_backend_content (driveId driveName : String) (ms : List ApiManager)
    (mirror : List ManagerRec) (now freshBase : Nat) :
    ((syncManagersForDrive driveId driveName ms mirror now freshBase).mirror.filter
        (fun r => r.driveId == driveId && r.synced_by_backend)).map managerKey
      = ms.map apiManagerKey := by
  rw [syncManagersForDrive_mirror]
  rw [List.filter_append, filter_not_filter, List.nil_append]
  rw [List.filter_eq_self.mpr]
  · rw [List.map_map]
    have h : managerKey ∘
          (fun p : Nat × ApiManager =>
            newManagerRec driveId driveName (freshBase + p.1) p.2 now)
        = apiManagerKey ∘ Prod.snd := rfl
    rw [h, ← List.map_map, List.enum_map_snd]
  · intro a ha
    simp only [List.mem_map] at ha
    obtain ⟨p, _, rfl⟩ := ha
    simp [newManagerRec]

theorem C4_manager_replace (driveId driveName : String) (ms : List ApiManager)
    (mirror : List ManagerRec) (now freshBase : Nat) :
    (((syncManagersForDrive driveId driveName ms mirror now freshBase).mirror.filter
        (fun r => r.driveId == driveId && r.synced_by_backend)).map managerKey
      = ms.map apiManagerKey)
    ∧ ((syncManagersForDrive driveId driveName ms mirror now freshBase).mirror.filter
        (fun r => !r.synced_by_backend)
      = mirror.filter (fun r => !r.synced_by_backend))
    ∧ (∀ d', d' ≠ driveId →
        (syncManagersForDrive driveId driveName ms mirror now freshBase).mirror.filter
          (fun r => r.driveId == d' && r.synced_by_backend)
        = mirror.filter (fun r => r.driveId == d' && r.synced_by_backend)) := by
  refine ⟨syncManagers_backend_content driveId driveName ms mirror now freshBase, ?_, ?_⟩
  · rw [syncManagersForDrive_mirror]
    rw [List.filter_append]
    have h1 : (ms.enum.map (fun p => newManagerRec driveId driveName (freshBase + p.1) p.2 now)).filter
        (fun r => !r.synced_by_backend) = [] := by
      rw [List.filter_eq_nil_iff]
      intro a ha
      simp only [List.mem_map] at ha
      obtain ⟨p, _, rfl⟩ := ha
      simp [newManagerRec]
    rw [h1, List.append_nil, List.filter_filter]
    apply List.filter_congr
    intro r _
    cases hb : r.synced_by_backend <;> simp [hb]
  · intro d' hd'
    rw [syncManagersForDrive_mirror]
    rw [List.filter_append]
    have h1 : (ms.enum.map (fun p => newManagerRec driveId driveName (freshBase + p.1) p.2 now)).filter
        (fun r => r.driveId == d' && r.synced_by_backend) = [] := by
      rw [List.filter_eq_nil_iff]
      intro a ha
      simp only [List.mem_map] at ha
      obtain ⟨p, _, rfl⟩ := ha
      simp [newManagerRec]
      intro hcontra
      exact absurd hcontra.symm hd'
    rw [h1, List.append_nil, List.filter_filter]
    apply List.filter_congr
    intro r _
    by_cases hdr : r.driveId = d'
    · have hne : (d' == driveId) = false := by simp [hd']
      simp [hdr, hne]
    · simp [hdr]

/-- Witness for C4 at a concrete drive with one prior backend-synced
manager, one foreign record and one incoming manager. -/
theorem C4_manager_replace_witness :
    (((syncManagersForDrive "d1" "Drive 1"
        [{ id := "perm9", emailAddress := some "b@x.com" }]
        [{ docId := 0, driveId := "d1", driveName := "Drive 1", email := some "a@x.com",
           role := "organizer", type := "user", permissionId := "perm1",
           displayName := none, photoLink := none, synced_at := 1,
           synced_by_backend := true },
         { docId := 1, driveId := "d1", driveName := "Drive 1", email := some "c@x.com",
           role := "organizer", type := "user", permissionId := "perm2",
           displayName := none, photoLink := none, synced_at := 1,
           synced_by_backend := false }] 2 10).mirror.filter
        (fun r => r.driveId == "d1" && r.synced_by_backend)).map managerKey
      = [(some "b@x.com", "organizer", "perm9")])
    ∧ ("d2" ≠ "d1") := by
  constructor
  · exact (C4_manager_replace "d1" "Drive 1" _ _ 2 10).1
  · decide

theorem batchChunks_flatten (ops : List FsOp) : (batchChunks ops).flatten = ops := by
  induction ops using batchChunks.induct with
  | case1 => simp [batchChunks]
  | case2 a l ih => rw [batchChunks, List.flatten_cons, ih, List.take_append_drop]

theorem batchChunks_le (ops : List FsOp) : ∀ b ∈ batchChunks ops, b.length ≤ 500 := by
  induction ops using batchChunks.induct with
  | case1 => intro b hb; simp [batchChunks] at hb
  | case2 a l ih =>
      intro b hb
      rw [batchChunks] at hb
      rcases List.mem_cons.mp hb with rfl | hb
      · simp
      · exact ih b hb

theorem batchChunks_eq_nil (ops : List FsOp) : batchChunks ops = [] ↔ ops = [] := by
  cases ops with
  | nil => simp [batchChunks]
  | cons a l => rw [batchChunks]; simp

theorem batchChunks_two (ops : List FsOp) (h : 500 < ops.length) :
    2 ≤ (batchChunks ops).length := by
  cases ops with
  | nil => simp at h
  | cons a l =>
      rw [batchChunks]
      have hne : (a :: l).drop 500 ≠ [] := by
        intro hc
        have := congrArg List.length hc
        simp only [List.length_drop, List.length_cons, List.length_nil] at this
        simp only [List.length_cons] at h
        omega
      have h2 : batchChunks ((a :: l).drop 500) ≠ [] :=
        fun hc => hne ((batchChunks_eq_nil _).mp hc)
      cases hD : batchChunks ((a :: l).drop 500) with
      | nil => exact absurd hD h2
      | cons b bs => simp

/-- C6 counterexample: a replace of one drive's managers with 501 incoming
entries over an empty mirror is committed as a single batch of 501
operations — syncManagersForDrive stages every delete and insert into one
WriteBatch and commits it once, with no 500-operation chunking. -/
def manyManagers : List ApiManager :=
  (List.range 501).map (fun i => { id := toString i, emailAddress := some (toString i) })

theorem C6_counterexample :
    ((syncManagersForDrive "d1" "Drive 1" manyManagers [] 3 0).batches.headD []).length = 501
    ∧ (syncManagersForDrive "d1" "Drive 1" manyManagers [] 3 0).batches.length = 1
    ∧ 500 < 501 := by
  refine ⟨?_, rfl, by omega⟩
  simp [syncManagersForDrive, manyManagers]

/-- C6 amended: the batching discipline holds for the drive
deletion/upsert sequence of syncSharedDrives and for the folder upsert
sequence of syncFoldersForDrive — every committed batch has at most 500
operations, the committed batches concatenate to the staged sequence, and
a sequence longer than 500 is split into at least two batches — but NOT
for syncManagersForDrive, which always commits exactly one batch holding
all of its deletes and inserts, however many there are. -/
theorem C6_amended :
    (∀ (api : List ApiDrive) (mirror : List DriveRec) (now : Nat),
      (∀ b ∈ (syncSharedDrives api mirror now).batches, b.length ≤ 500)
      ∧ ((syncSharedDrives api mirror now).batches.flatten.length
          = (syncSharedDrives api mirror now).deleted
            + (syncSharedDrives api mirror now).processed)
      ∧ (500 < (syncSharedDrives api mirror now).deleted
            + (syncSharedDrives api mirror now).processed →
          2 ≤ (syncSharedDrives api mirror now).batches.length))
    ∧ (∀ (driveId : String) (fs : List ApiFolder) (mirror : List FolderRec) (now : Nat),
      (∀ b ∈ (syncFoldersForDrive driveId fs mirror now).batches, b.length ≤ 500)
      ∧ (500 < fs.length → 2 ≤ (syncFoldersForDrive driveId fs mirror now).batches.length))
    ∧ (∀ (driveId driveName : String) (ms : List ApiManager) (mirror : List ManagerRec)
        (now freshBase : Nat),
      (syncManagersForDrive driveId driveName ms mirror now freshBase).batches.length = 1) := by
  refine ⟨?_, ?_, ?_⟩
  · intro api mirror now
    refine ⟨batchChunks_le _, ?_, ?_⟩
    · rw [show (syncSharedDrives api mirror now).batches
          = batchChunks
            (((mirror.map (fun r => r.id)).filter
                (fun i => !((api.map (fun d => d.id)).contains i))).map
              (fun i => FsOp.del SHARED_DRIVES i)
             ++ api.map (fun d => FsOp.setMerge SHARED_DRIVES d.id)) from rfl]
      rw [batchChunks_flatten]
      simp [syncSharedDrives]
    · intro h
      apply batchChunks_two
      simp only [List.length_append, List.length_map]
      simpa [syncSharedDrives] using h
  · intro driveId fs mirror now
    refine ⟨batchChunks_le _, ?_⟩
    intro h
    apply batchChunks_two
    simpa using h
  · intro driveId driveName ms mirror now freshBase
    rfl

/-- Witness for C6 amended: a 501-operation drive upsert sequence is split
into two batches of 500 and 1 operations. -/
def manyDrives : List ApiDrive :=
  (List.range 501).map (fun i => { id := toString i, name := toString i })

theorem C6_amended_witness :
    500 < (syncSharedDrives manyDrives [] 3).deleted
            + (syncSharedDrives manyDrives [] 3).processed
    ∧ 2 ≤ (syncSharedDrives manyDrives [] 3).batches.length := by
  have h : 500 < (syncSharedDrives manyDrives [] 3).deleted
      + (syncSharedDrives manyDrives [] 3).processed := by
    simp [syncSharedDrives, manyDrives]
  exact ⟨h, ((C6_amended.1 manyDrives [] 3).2.2 h)⟩

theorem driveUpsertData_id (e : Option DriveRec) (d : ApiDrive) (n : Nat) :
    (driveUpsertData e d n).id = d.id := by
  cases e with
  | none => rfl
  | some e =>
      simp only [driveUpsertData]
      split <;> rfl

theorem mem_map_key_setKeyed {α : Type} (key : α → String) (m : List α) (r : α)
    (i : String) :
    i ∈ (setKeyed key m r).map key ↔ i ∈ m.map key ∨ i = key r := by
  unfold setKeyed
  split
  · rename_i h
    rw [List.any_eq_true] at h
    obtain ⟨x, hx, hxk⟩ := h
    rw [beq_iff_eq] at hxk
    simp only [List.map_map, List.mem_map, Function.comp_def]
    constructor
    · rintro ⟨y, hy, rfl⟩
      by_cases hyk : key y = key r
      · right; simp [hyk]
      · left; exact ⟨y, hy, by simp [hyk]⟩
    · rintro (⟨y, hy, rfl⟩ | rfl)
      · refine ⟨y, hy, ?_⟩
        by_cases hyk : key y = key r <;> simp [hyk]
      · exact ⟨x, hx, by simp [hxk]⟩
  · simp [or_comm]

theorem mem_map_key_foldl_setKeyed {α β : Type} (key : α → String) (f : β → α)
    (ds : List β) (m0 : List α) (i : String) :
    i ∈ ((ds.foldl (fun m d => setKeyed key m (f d)) m0).map key)
      ↔ i ∈ m0.map key ∨ i ∈ ds.map (fun d => key (f d)) := by
  induction ds generalizing m0 with
  | nil => simp
  | cons d ds ih =>
      rw [List.foldl_cons, ih, mem_map_key_setKeyed]
      simp only [List.map_cons, List.mem_cons]
      tauto

theorem syncSharedDrives_toDelete_def (api : List ApiDrive) (mirror : List DriveRec)
    (now : Nat) :
    (syncSharedDrives api mirror now).drivesToDelete
      = (mirror.map (fun r => r.id)).filter
          (fun i => !((api.map (fun d => d.id)).contains i)) := rfl

theorem syncSharedDrives_mirror_def (api : List ApiDrive) (mirror : List DriveRec)
    (now : Nat) :
    (syncSharedDrives api mirror now).mirror
      = api.foldl
          (fun m d => setKeyed (fun r => r.id) m (driveUpsertData (findDoc mirror d.id) d now))
          (mirror.filter
            (fun r => !((syncSharedDrives api mirror now).drivesToDelete.contains r.id))) := rfl

theorem syncSharedDrives_toDelete_mem (api : List ApiDrive) (mirror : List DriveRec)
    (now : Nat) (i : String) :
    i ∈ (syncSharedDrives api mirror now).drivesToDelete
      ↔ i ∈ mirror.map (fun r => r.id) ∧ ¬ i ∈ api.map (fun d => d.id) := by
  rw [syncSharedDrives_toDelete_def, List.mem_filter]
  simp

theorem syncSharedDrives_mirror_ids (api : List ApiDrive) (mirror : List DriveRec)
    (now : Nat) (i : String) :
    i ∈ (syncSharedDrives api mirror now).mirror.map (fun r => r.id)
      ↔ i ∈ api.map (fun d => d.id) := by
  rw [syncSharedDrives_mirror_def,
    mem_map_key_foldl_setKeyed (fun r => r.id)
      (fun d => driveUpsertData (findDoc mirror d.id) d now)]
  have hids : api.map (fun d => (driveUpsertData (findDoc mirror d.id) d now).id)
      = api.map (fun d => d.id) :=
    List.map_congr_left (fun d _ => driveUpsertData_id _ d now)
  rw [hids]
  constructor
  · rintro (hafter | h)
    · rw [List.mem_map] at hafter
      obtain ⟨r, hr, rfl⟩ := hafter
      rw [List.mem_filter] at hr
      have h2 : ¬ r.id ∈ (syncSharedDrives api mirror now).drivesToDelete := by
        simpa using hr.2
      rw [syncSharedDrives_toDelete_mem] at h2
      push_neg at h2
      exact h2 (List.mem_map_of_mem _ hr.1)
    · exact h
  · exact fun h => Or.inr h

/-- The two remote drives of the reconciliation scenario. -/
def driveD1 : ApiDrive := { id := "D1", name := "Drive 1" }

/-- Second remote drive of the scenario. -/
def driveD2 : ApiDrive := { id := "D2", name := "Drive 2" }

/-- Mirrored record of D1 before the scenario run. -/
def recD1 : DriveRec :=
  { id := "D1", name := "Drive 1 old", kind := "drive#drive", colorRgb := none,
    backgroundImageFile := none, capabilities := [], createdTime := 1, hidden := false,
    restrictions := [], synced_at := 1, synced_by_backend := true }

/-- Mirrored record of the vanished drive D3 before the scenario run. -/
def recD3 : DriveRec :=
  { id := "D3", name := "Drive 3", kind := "drive#drive", colorRgb := none,
    backgroundImageFile := none, capabilities := [], createdTime := 1, hidden := false,
    restrictions := [], synced_at := 1, synced_by_backend := true }

/-- Provider for the scenario: remote drives D1 and D2, empty folder and
manager listings. -/
def scenarioProvider : Provider :=
  { drives := [driveD1, driveD2]
    foldersFor := fun _ => Except.ok []
    managersFor := fun _ => Except.ok [] }

/-- C1: in a full drive sync, the deleted ids are exactly the mirrored ids
absent from the fresh remote listing, each deleted exactly once (the
delete list has no duplicates and the committed operations carry one
delete per listed id); no remote id is deleted; every remote drive ends up
present in the mirror; and the surviving mirror ids are exactly the remote
ids.  In the concrete scenario remote D1,D2 against mirror D1,D3, the
mirror ends as exactly D1,D2, only D3 is deleted, and the full-sync stats
report drives_count two. -/
theorem C1_drive_reconciliation :
    (∀ (api : List ApiDrive) (mirror : List DriveRec) (now : Nat),
      (mirror.map (fun r => r.id)).Nodup →
        (syncSharedDrives api mirror now).drivesToDelete.Nodup
        ∧ (∀ i, i ∈ (syncSharedDrives api mirror now).drivesToDelete
            ↔ i ∈ mirror.map (fun r => r.id) ∧ ¬ i ∈ api.map (fun d => d.id))
        ∧ (∀ i, i ∈ api.map (fun d => d.id) →
            ¬ i ∈ (syncSharedDrives api mirror now).drivesToDelete)
        ∧ (∀ d ∈ api, ∃ r ∈ (syncSharedDrives api mirror now).mirror, r.id = d.id)
        ∧ (∀ i, i ∈ (syncSharedDrives api mirror now).mirror.map (fun r => r.id)
            ↔ i ∈ api.map (fun d => d.id)))
    ∧ (syncSharedDrives [driveD1, driveD2] [recD1, recD3] 7).mirror.map (fun r => r.id)
        = ["D1", "D2"]
    ∧ (syncSharedDrives [driveD1, driveD2] [recD1, recD3] 7).drivesToDelete = ["D3"]
    ∧ (performFullSync scenarioProvider).2.drives_count = 2 := by
  refine ⟨?_, by decide, by decide, rfl⟩
  intro api mirror now hnodup
  refine ⟨?_, fun i => syncSharedDrives_toDelete_mem api mirror now i, ?_, ?_, ?_⟩
  · rw [syncSharedDrives_toDelete_def]
    exact hnodup.filter _
  · intro i hi hcontra
    exact ((syncSharedDrives_toDelete_mem api mirror now i).mp hcontra).2 hi
  · intro d hd
    have : d.id ∈ (syncSharedDrives api mirror now).mirror.map (fun r => r.id) :=
      (syncSharedDrives_mirror_ids api mirror now d.id).mpr
        (List.mem_map_of_mem _ hd)
    rw [List.mem_map] at this
    obtain ⟨r, hr, hrid⟩ := this
    exact ⟨r, hr, hrid⟩
  · exact fun i => syncSharedDrives_mirror_ids api mirror now i

/-- Witness for C1 applying the general part at the concrete scenario. -/
theorem C1_drive_reconciliation_witness :
    (([recD1, recD3].map (fun r => r.id)).Nodup)
    ∧ (∀ i, i ∈ (syncSharedDrives [driveD1, driveD2] [recD1, recD3] 7).drivesToDelete
        ↔ i ∈ [recD1, recD3].map (fun r => r.id)
          ∧ ¬ i ∈ [driveD1, driveD2].map (fun d => d.id)) :=
  ⟨by decide,
    (C1_drive_reconciliation.1 [driveD1, driveD2] [recD1, recD3] 7 (by decide)).2.1⟩

theorem folderUpsertData_id (e : Option FolderRec) (driveId : String) (f : ApiFolder)
    (n : Nat) : (folderUpsertData e driveId f n).id = f.id := by
  cases e with
  | none => rfl
  | some e =>
      simp only [folderUpsertData]
      split <;> rfl

theorem mem_setKeyed {α : Type} (key : α → String) (m : List α) (x r : α)
    (h : r ∈ setKeyed key m x) : r ∈ m ∨ r = x := by
  unfold setKeyed at h
  split at h
  · rw [List.mem_map] at h
    obtain ⟨y, hy, rfl⟩ := h
    by_cases hk : key y = key x
    · right; simp [hk]
    · left; simpa [hk] using hy
  · rcases List.mem_append.mp h with h1 | h1
    · exact Or.inl h1
    · exact Or.inr (by simpa using h1)

theorem mem_foldl_setKeyed {α β : Type} (key : α → String) (f : β → α) (ds : List β)
    (m0 : List α) (r : α) (h : r ∈ ds.foldl (fun m d => setKeyed key m (f d)) m0) :
    r ∈ m0 ∨ ∃ d ∈ ds, r = f d := by
  induction ds generalizing m0 with
  | nil => exact Or.inl (by simpa using h)
  | cons d ds ih =>
      rw [List.foldl_cons] at h
      rcases ih _ h with h1 | ⟨d', hd', rfl⟩
      · rcases mem_setKeyed key m0 (f d) r h1 with h2 | rfl
        · exact Or.inl h2
        · exact Or.inr ⟨d, List.mem_cons_self d ds, rfl⟩
      · exact Or.inr ⟨d', List.mem_cons_of_mem d hd', rfl⟩

theorem eq_of_mem_setKeyed_key {α : Type} (key : α → String) (m : List α) (x r : α)
    (h : r ∈ setKeyed key m x) (hk : key r = key x) : r = x := by
  unfold setKeyed at h
  split at h
  · rw [List.mem_map] at h
    obtain ⟨y, hy, rfl⟩ := h
    by_cases hyk : key y = key x
    · simp [hyk]
    · simp only [beq_iff_eq, hyk, if_false] at hk
  · rename_i hany
    rcases List.mem_append.mp h with h1 | h1
    · exfalso
      apply hany
      rw [List.any_eq_true]
      exact ⟨r, h1, by simp [hk]⟩
    · simpa using h1

theorem foldl_setKeyed_lookup {α β : Type} (key : α → String) (f : β → α) (ds : List β)
    (d : β) (hd : d ∈ ds) (hnodup : (ds.map (fun d => key (f d))).Nodup) :
    ∀ (m0 : List α), ∀ r ∈ ds.foldl (fun m d => setKeyed key m (f d)) m0,
      key r = key (f d) → r = f d := by
  induction ds with
  | nil => simp at hd
  | cons d0 ds ih =>
      rw [List.map_cons, List.nodup_cons] at hnodup
      intro m0 r hr hkr
      rw [List.foldl_cons] at hr
      rcases List.mem_cons.mp hd with rfl | hd'
      · rcases mem_foldl_setKeyed key f ds _ r hr with h1 | ⟨d', hd'', rfl⟩
        · exact eq_of_mem_setKeyed_key key m0 (f d) r h1 hkr
        · exact absurd (hkr ▸ List.mem_map_of_mem (fun d => key (f d)) hd'') hnodup.1
      · exact ih hd' hnodup.2 (setKeyed key m0 (f d0)) r hr hkr

theorem syncSharedDrives_lookup (api : List ApiDrive) (mirror : List DriveRec)
    (now : Nat) (hnodup : (api.map (fun d => d.id)).Nodup) (d : ApiDrive) (hd : d ∈ api) :
    ∀ r ∈ (syncSharedDrives api mirror now).mirror, r.id = d.id →
      r = driveUpsertData (findDoc mirror d.id) d now := by
  intro r hr hrid
  rw [syncSharedDrives_mirror_def] at hr
  have hkeys : (api.map (fun d => (driveUpsertData (findDoc mirror d.id) d now).id)).Nodup := by
    rw [List.map_congr_left (fun d _ => driveUpsertData_id (findDoc mirror d.id) d now)]
    exact hnodup
  have := foldl_setKeyed_lookup (fun r => r.id)
    (fun d => driveUpsertData (findDoc mirror d.id) d now) api d hd hkeys _ r hr
  apply this
  show r.id = (driveUpsertData (findDoc mirror d.id) d now).id
  rw [hrid, driveUpsertData_id]

theorem syncFoldersForDrive_mirror_def (driveId : String) (fs : List ApiFolder)
    (mirror : List FolderRec) (now : Nat) :
    (syncFoldersForDrive driveId fs mirror now).mirror
      = fs.foldl (fun m f => setKeyed (fun r => r.id) m
          (folderUpsertData (findFolder mirror f.id) driveId f now)) mirror := rfl

theorem syncFoldersForDrive_lookup (driveId : String) (fs : List ApiFolder)
    (mirror : List FolderRec) (now : Nat) (hnodup : (fs.map (fun f => f.id)).Nodup)
    (f : ApiFolder) (hf : f ∈ fs) :
    ∀ r ∈ (syncFoldersForDrive driveId fs mirror now).mirror, r.id = f.id →
      r = folderUpsertData (findFolder mirror f.id) driveId f now := by
  intro r hr hrid
  rw [syncFoldersForDrive_mirror_def] at hr
  have hkeys : (fs.map (fun f =>
      (folderUpsertData (findFolder mirror f.id) driveId f now).id)).Nodup := by
    rw [List.map_congr_left (fun f _ => folderUpsertData_id (findFolder mirror f.id) driveId f now)]
    exact hnodup
  have := foldl_setKeyed_lookup (fun r => r.id)
    (fun f => folderUpsertData (findFolder mirror f.id) driveId f now) fs f hf hkeys mirror r hr
  apply this
  show r.id = (folderUpsertData (findFolder mirror f.id) driveId f now).id
  rw [hrid, folderUpsertData_id]

/-- C3: a record carrying created_by_frontend true is never demoted by a
sync upsert.  At the merge level, the staged drive or folder document for
an existing frontend-created record re-asserts created_by_frontend and
copies created_at forward unchanged; at the collection level, after a
syncSharedDrives or syncFoldersForDrive cycle whose remote input contains
the record's id, every stored record under that id still carries
created_by_frontend true and the original created_at. -/
theorem C3_preserved_fields :
    (∀ (e : DriveRec) (d : ApiDrive) (now : Nat), e.created_by_frontend = true →
        (driveUpsertData (some e) d now).created_by_frontend = true
        ∧ (driveUpsertData (some e) d now).created_at = e.created_at)
    ∧ (∀ (e : FolderRec) (driveId : String) (f : ApiFolder) (now : Nat),
        e.created_by_frontend = true →
        (folderUpsertData (some e) driveId f now).created_by_frontend = true
        ∧ (folderUpsertData (some e) driveId f now).created_at = e.created_at)
    ∧ (∀ (api : List ApiDrive) (mirror : List DriveRec) (now : Nat) (e : DriveRec)
        (d : ApiDrive), (api.map (fun d => d.id)).Nodup → d ∈ api →
        findDoc mirror d.id = some e → e.created_by_frontend = true →
        ∀ r ∈ (syncSharedDrives api mirror now).mirror, r.id = d.id →
          r.created_by_frontend = true ∧ r.created_at = e.created_at)
    ∧ (∀ (driveId : String) (fs : List ApiFolder) (mirror : List FolderRec) (now : Nat)
        (e : FolderRec) (f : ApiFolder), (fs.map (fun f => f.id)).Nodup → f ∈ fs →
        findFolder mirror f.id = some e → e.created_by_frontend = true →
        ∀ r ∈ (syncFoldersForDrive driveId fs mirror now).mirror, r.id = f.id →
          r.created_by_frontend = true ∧ r.created_at = e.created_at) := by
  have hdrive : ∀ (e : DriveRec) (d : ApiDrive) (now : Nat), e.created_by_frontend = true →
      (driveUpsertData (some e) d now).created_by_frontend = true
      ∧ (driveUpsertData (some e) d now).created_at = e.created_at := by
    intro e d now h
    simp [driveUpsertData, h]
  have hfolder : ∀ (e : FolderRec) (driveId : String) (f : ApiFolder) (now : Nat),
      e.created_by_frontend = true →
      (folderUpsertData (some e) driveId f now).created_by_frontend = true
      ∧ (folderUpsertData (some e) driveId f now).created_at = e.created_at := by
    intro e driveId f now h
    simp [folderUpsertData, h]
  refine ⟨hdrive, hfolder, ?_, ?_⟩
  · intro api mirror now e d hnodup hd hfind he r hr hrid
    have := syncSharedDrives_lookup api mirror now hnodup d hd r hr hrid
    rw [this, hfind]
    exact hdrive e d now he
  · intro driveId fs mirror now e f hnodup hf hfind he r hr hrid
    have := syncFoldersForDrive_lookup driveId fs mirror now hnodup f hf r hr hrid
    rw [this, hfind]
    exact hfolder e driveId f now he

/-- A frontend-created mirrored drive record used by the C3 witness. -/
def recFront : DriveRec :=
  { id := "D1", name := "Drive 1", kind := "drive#drive", colorRgb := none,
    backgroundImageFile := none, capabilities := [], createdTime := 1, hidden := false,
    restrictions := [], synced_at := 1, synced_by_backend := true,
    created_by_frontend := true, created_at := some 42 }

/-- Witness for C3: re-syncing the frontend-created record of drive D1
keeps created_by_frontend true and created_at 42. -/
theorem C3_preserved_fields_witness :
    (driveUpsertData (some recFront) driveD1 9).created_by_frontend = true
    ∧ (driveUpsertData (some recFront) driveD1 9).created_at = recFront.created_at :=
  C3_preserved_fields.1 recFront driveD1 9 rfl

theorem find?_map_replace {α : Type} (key : α → String) (x : α) (i : String)
    (m : List α) (hxi : key x ≠ i) :
    (m.map (fun y => if key y == key x then x else y)).find? (fun r => key r == i)
      = m.find? (fun r => key r == i) := by
  induction m with
  | nil => rfl
  | cons y m ih =>
      rw [List.map_cons]
      by_cases hyk : key y = key x
      · have hcond : (if (key y == key x) = true then x else y) = x := by simp [hyk]
        have e1 : (key x == i) = false := by simp [hxi]
        have e2 : (key y == i) = false := by simp [hyk, hxi]
        rw [hcond, List.find?_cons, List.find?_cons, e1, e2]
        exact ih
      · have hcond : (if (key y == key x) = true then x else y) = y := by simp [hyk]
        rw [hcond, List.find?_cons, List.find?_cons]
        cases e : (key y == i) with
        | true => rfl
        | false => exact ih

theorem find?_append_singleton_ne {α : Type} (p : α → Bool) (x : α) (hx : p x = false)
    (m : List α) : (m ++ [x]).find? p = m.find? p := by
  induction m with
  | nil =>
      rw [List.nil_append, List.find?_cons, hx]
  | cons y m ih =>
      rw [List.cons_append, List.find?_cons, List.find?_cons]
      cases e : p y with
      | true => rfl
      | false => exact ih

theorem find?_setKeyed_ne {α : Type} (key : α → String) (m : List α) (x : α)
    (i : String) (hxi : key x ≠ i) :
    (setKeyed key m x).find? (fun r => key r == i) = m.find? (fun r => key r == i) := by
  unfold setKeyed
  split
  · exact find?_map_replace key x i m hxi
  · exact find?_append_singleton_ne _ x (by simp [hxi]) m

theorem find?_foldl_setKeyed_ne {α β : Type} (key : α → String) (f : β → α)
    (ds : List β) (i : String) (h : ∀ d ∈ ds, key (f d) ≠ i) :
    ∀ m0 : List α, (ds.foldl (fun m d => setKeyed key m (f d)) m0).find? (fun r => key r == i)
      = m0.find? (fun r => key r == i) := by
  induction ds with
  | nil => intro m0; rfl
  | cons d ds ih =>
      intro m0
      rw [List.foldl_cons, ih (fun d' hd' => h d' (List.mem_cons_of_mem _ hd')),
        find?_setKeyed_ne key m0 (f d) i (h d (List.mem_cons_self _ _))]

theorem findDoc_foldl_setKeyed_ne (f : ApiDrive → DriveRec) (ds : List ApiDrive)
    (i : String) (h : ∀ d ∈ ds, (f d).id ≠ i) (m0 : List DriveRec) :
    findDoc (ds.foldl (fun m d => setKeyed (fun r => r.id) m (f d)) m0) i = findDoc m0 i := by
  unfold findDoc
  exact find?_foldl_setKeyed_ne (fun r => r.id) f ds i h m0

theorem findFolder_foldl_setKeyed_ne (f : ApiFolder → FolderRec) (ds : List ApiFolder)
    (i : String) (h : ∀ d ∈ ds, (f d).id ≠ i) (m0 : List FolderRec) :
    findFolder (ds.foldl (fun m d => setKeyed (fun r => r.id) m (f d)) m0) i
      = findFolder m0 i := by
  unfold findFolder
  exact find?_foldl_setKeyed_ne (fun r => r.id) f ds i h m0

theorem syncSharedDrives_find_mem (api : List ApiDrive) (mirror : List DriveRec)
    (now : Nat) (hnodup : (api.map (fun d => d.id)).Nodup) (d : ApiDrive) (hd : d ∈ api) :
    findDoc (syncSharedDrives api mirror now).mirror d.id
      = some (driveUpsertData (findDoc mirror d.id) d now) := by
  have hex : d.id ∈ (syncSharedDrives api mirror now).mirror.map (fun r => r.id) :=
    (syncSharedDrives_mirror_ids api mirror now d.id).mpr (List.mem_map_of_mem _ hd)
  rw [List.mem_map] at hex
  obtain ⟨r0, hr0, hr0id⟩ := hex
  cases hfind : findDoc (syncSharedDrives api mirror now).mirror d.id with
  | none =>
      exfalso
      unfold findDoc at hfind
      have := List.find?_eq_none.mp hfind r0 hr0
      simp [hr0id] at this
  | some r =>
      unfold findDoc at hfind
      have hm := List.mem_of_find?_eq_some hfind
      have hp := List.find?_some hfind
      rw [beq_iff_eq] at hp
      rw [syncSharedDrives_lookup api mirror now hnodup d hd r hm hp]

theorem syncFoldersForDrive_find_mem (driveId : String) (fs : List ApiFolder)
    (mirror : List FolderRec) (now : Nat) (hnodup : (fs.map (fun f => f.id)).Nodup)
    (f : ApiFolder) (hf : f ∈ fs) :
    findFolder (syncFoldersForDrive driveId fs mirror now).mirror f.id
      = some (folderUpsertData (findFolder mirror f.id) driveId f now) := by
  have hex : f.id ∈ (syncFoldersForDrive driveId fs mirror now).mirror.map (fun r => r.id) := by
    rw [syncFoldersForDrive_mirror_def,
      mem_map_key_foldl_setKeyed (fun r => r.id)
        (fun f => folderUpsertData (findFolder mirror f.id) driveId f now)]
    right
    rw [List.map_congr_left
      (fun f _ => folderUpsertData_id (findFolder mirror f.id) driveId f now)]
    exact List.mem_map_of_mem _ hf
  rw [List.mem_map] at hex
  obtain ⟨r0, hr0, hr0id⟩ := hex
  cases hfind : findFolder (syncFoldersForDrive driveId fs mirror now).mirror f.id with
  | none =>
      exfalso
      unfold findFolder at hfind
      have := List.find?_eq_none.mp hfind r0 hr0
      simp [hr0id] at this
  | some r =>
      unfold findFolder at hfind
      have hm := List.mem_of_find?_eq_some hfind
      have hp := List.find?_some hfind
      rw [beq_iff_eq] at hp
      rw [syncFoldersForDrive_lookup driveId fs mirror now hnodup f hf r hm hp]

theorem driveUpsertData_idem (e : Option DriveRec) (d : ApiDrive) (t : Nat) :
    driveUpsertData (some (driveUpsertData e d t)) d t = driveUpsertData e d t := by
  cases e with
  | none => rfl
  | some e' => by_cases h : e'.created_by_frontend <;> simp [driveUpsertData, h]

theorem folderUpsertData_idem (e : Option FolderRec) (driveId : String) (f : ApiFolder)
    (t : Nat) :
    folderUpsertData (some (folderUpsertData e driveId f t)) driveId f t
      = folderUpsertData e driveId f t := by
  cases e with
  | none => rfl
  | some e' => by_cases h : e'.created_by_frontend <;> simp [folderUpsertData, h]

theorem syncSharedDrives_second_toDelete (api : List ApiDrive) (mirror : List DriveRec)
    (t t' : Nat) :
    (syncSharedDrives api (syncSharedDrives api mirror t).mirror t').drivesToDelete = [] := by
  rw [syncSharedDrives_toDelete_def, List.filter_eq_nil_iff]
  intro i hi
  have h := (syncSharedDrives_mirror_ids api mirror t i).mp hi
  simp [h]

theorem syncSharedDrives_twice_find (api : List ApiDrive) (mirror : List DriveRec)
    (t : Nat) (hnodup : (api.map (fun d => d.id)).Nodup) (i : String) :
    findDoc (syncSharedDrives api (syncSharedDrives api mirror t).mirror t).mirror i
      = findDoc (syncSharedDrives api mirror t).mirror i := by
  by_cases hi : i ∈ api.map (fun d => d.id)
  · rw [List.mem_map] at hi
    obtain ⟨d, hd, rfl⟩ := hi
    rw [syncSharedDrives_find_mem api _ t hnodup d hd,
      syncSharedDrives_find_mem api mirror t hnodup d hd,
      driveUpsertData_idem]
  · have h1 : ∀ d ∈ api,
        (driveUpsertData (findDoc (syncSharedDrives api mirror t).mirror d.id) d t).id ≠ i := by
      intro d hd
      rw [driveUpsertData_id]
      intro hc
      exact hi (hc ▸ List.mem_map_of_mem _ hd)
    have h2 : findDoc (syncSharedDrives api (syncSharedDrives api mirror t).mirror t).mirror i
        = findDoc ((syncSharedDrives api mirror t).mirror.filter
            (fun r => !((syncSharedDrives api (syncSharedDrives api mirror t).mirror
              t).drivesToDelete.contains r.id))) i := by
      rw [syncSharedDrives_mirror_def]
      exact findDoc_foldl_setKeyed_ne
        (fun d => driveUpsertData (findDoc (syncSharedDrives api mirror t).mirror d.id) d t)
        api i h1 _
    rw [h2, syncSharedDrives_second_toDelete]
    simp

theorem syncFoldersForDrive_twice_find (driveId : String) (fs : List ApiFolder)
    (mirror : List FolderRec) (t : Nat) (hnodup : (fs.map (fun f => f.id)).Nodup)
    (i : String) :
    findFolder (syncFoldersForDrive driveId fs
        (syncFoldersForDrive driveId fs mirror t).mirror t).mirror i
      = findFolder (syncFoldersForDrive driveId fs mirror t).mirror i := by
  by_cases hi : i ∈ fs.map (fun f => f.id)
  · rw [List.mem_map] at hi
    obtain ⟨f, hf, rfl⟩ := hi
    rw [syncFoldersForDrive_find_mem driveId fs _ t hnodup f hf,
      syncFoldersForDrive_find_mem driveId fs mirror t hnodup f hf,
      folderUpsertData_idem]
  · have h1 : ∀ f ∈ fs,
        (folderUpsertData (findFolder (syncFoldersForDrive driveId fs mirror t).mirror f.id)
          driveId f t).id ≠ i := by
      intro f hf
      rw [folderUpsertData_id]
      intro hc
      exact hi (hc ▸ List.mem_map_of_mem _ hf)
    rw [syncFoldersForDrive_mirror_def]
    exact findFolder_foldl_setKeyed_ne
      (fun f => folderUpsertData (findFolder (syncFoldersForDrive driveId fs mirror t).mirror f.id)
        driveId f t) fs i h1 _

/-- Provider for the C10 counterexample: one drive with one manager and no
folders. -/
def mgrProvider : Provider :=
  { drives := [driveD1]
    foldersFor := fun _ => Except.ok []
    managersFor := fun _ => Except.ok [{ id := "p1", emailAddress := some "a@x.com" }] }

/-- Mirror state after the first full sync of the counterexample scenario. -/
def run1Mirror : Mirror :=
  (performSyncRun mgrProvider { drives := [], folders := [], managers := [] } 5 0 "s1").mirror

/-- C10 counterexample: a second full sync with unchanged remote state is
not mutation-free and does fire deletions — syncManagersForDrive deletes
the drive's backend-synced manager documents and re-inserts them under
fresh document ids on every run, so the second run's manager collection
differs from the first (document id 100 instead of 0) and its single
manager batch contains a delete operation. -/
theorem C10_counterexample :
    (run1Mirror.managers.map (fun r => r.docId) = [0])
    ∧ ((performSyncRun mgrProvider run1Mirror 5 100 "s2").mirror.managers.map
        (fun r => r.docId) = [100])
    ∧ (performSyncRun mgrProvider run1Mirror 5 100 "s2").mirror.managers
        ≠ run1Mirror.managers
    ∧ (syncManagersForDrive "D1" "Drive 1"
        [{ id := "p1", emailAddress := some "a@x.com" }] run1Mirror.managers 5 100).batches
        = [[FsOp.del DRIVE_MANAGERS "0", FsOp.setDoc DRIVE_MANAGERS "100"]] := by
  refine ⟨rfl, rfl, ?_, rfl⟩
  decide

/-- C10 amended: on a second full sync over unchanged remote state the
drive-level diff deletes nothing (the mirror and remote id sets already
match), and at an unchanged clock the drive and folder collections are
unchanged document-for-document (those upserts are no-op merges); the
manager collection, however, is not left untouched: each drive's
backend-synced managers are deleted and re-inserted under fresh document
ids every run, preserving only their content keyed by email, role and
permissionId. -/
theorem C10_full_sync_idempotence :
    (∀ (api : List ApiDrive) (mirror : List DriveRec) (t t' : Nat),
      (syncSharedDrives api (syncSharedDrives api mirror t).mirror t').drivesToDelete = []
      ∧ (syncSharedDrives api (syncSharedDrives api mirror t).mirror t').deleted = 0)
    ∧ (∀ (api : List ApiDrive) (mirror : List DriveRec) (t : Nat),
        (api.map (fun d => d.id)).Nodup → ∀ i,
        findDoc (syncSharedDrives api (syncSharedDrives api mirror t).mirror t).mirror i
          = findDoc (syncSharedDrives api mirror t).mirror i)
    ∧ (∀ (driveId : String) (fs : List ApiFolder) (mirror : List FolderRec) (t : Nat),
        (fs.map (fun f => f.id)).Nodup → ∀ i,
        findFolder (syncFoldersForDrive driveId fs
            (syncFoldersForDrive driveId fs mirror t).mirror t).mirror i
          = findFolder (syncFoldersForDrive driveId fs mirror t).mirror i)
    ∧ (∀ (driveId driveName : String) (ms : List ApiManager)
        (m1 m2 : List ManagerRec) (t t' fb fb' : Nat),
        ((syncManagersForDrive driveId driveName ms m2 t' fb').mirror.filter
            (fun r => r.driveId == driveId && r.synced_by_backend)).map managerKey
          = ((syncManagersForDrive driveId driveName ms m1 t fb).mirror.filter
              (fun r => r.driveId == driveId && r.synced_by_backend)).map managerKey) := by
  refine ⟨?_, syncSharedDrives_twice_find, syncFoldersForDrive_twice_find, ?_⟩
  · intro api mirror t t'
    have h := syncSharedDrives_second_toDelete api mirror t t'
    refine ⟨h, ?_⟩
    show (syncSharedDrives api (syncSharedDrives api mirror t).mirror t').drivesToDelete.length = 0
    rw [h]
    rfl
  · intro driveId driveName ms m1 m2 t t' fb fb'
    rw [syncManagers_backend_content, syncManagers_backend_content]

/-- Witness for C10 amended at the concrete drive scenario. -/
theorem C10_full_sync_idempotence_witness :
    (([driveD1, driveD2].map (fun d => d.id)).Nodup)
    ∧ findDoc (syncSharedDrives [driveD1, driveD2]
          (syncSharedDrives [driveD1, driveD2] [recD1, recD3] 7).mirror 7).mirror "D1"
        = findDoc (syncSharedDrives [driveD1, driveD2] [recD1, recD3] 7).mirror "D1" :=
  ⟨by decide,
    C10_full_sync_idempotence.2.1 [driveD1, driveD2] [recD1, recD3] 7 (by decide) "D1"⟩

theorem length_filter_mono {α : Type} (p q : α → Bool) (l : List α)
    (himp : ∀ x ∈ l, q x = true → p x = true) :
    (l.filter q).length ≤ (l.filter p).length := by
  induction l with
  | nil => simp
  | cons y l ih =>
      have ih' := ih (fun x hx => himp x (List.mem_cons_of_mem _ hx))
      rw [List.filter_cons, List.filter_cons]
      by_cases hq : q y = true
      · have hp := himp y (List.mem_cons_self _ _) hq
        simp only [hq, hp, if_true, List.length_cons]
        omega
      · rw [Bool.not_eq_true] at hq
        by_cases hp : p y = true
        · simp only [hq, hp, Bool.false_eq_true, if_false, if_true, List.length_cons]
          omega
        · rw [Bool.not_eq_true] at hp
          simp only [hq, hp, Bool.false_eq_true, if_false]
          exact ih'

theorem length_filter_lt {α : Type} (p q : α → Bool) (l : List α)
    (himp : ∀ x ∈ l, q x = true → p x = true) (x0 : α) (hx0 : x0 ∈ l)
    (hp : p x0 = true) (hq : q x0 = false) :
    (l.filter q).length < (l.filter p).length := by
  induction l with
  | nil => simp at hx0
  | cons y l ih =>
      rw [List.filter_cons, List.filter_cons]
      by_cases hy : q y = true
      · have hpy := himp y (List.mem_cons_self _ _) hy
        have hx0' : x0 ∈ l := by
          rcases List.mem_cons.mp hx0 with rfl | h
          · rw [hy] at hq; exact absurd hq (by simp)
          · exact h
        have := ih (fun x hx => himp x (List.mem_cons_of_mem _ hx)) hx0'
        simp only [hy, hpy, if_true, List.length_cons]
        omega
      · rw [Bool.not_eq_true] at hy
        by_cases hpy : p y = true
        · have hmono := length_filter_mono p q l (fun x hx => himp x (List.mem_cons_of_mem _ hx))
          rcases List.mem_cons.mp hx0 with rfl | h
          · simp only [hy, hpy, Bool.false_eq_true, if_false, if_true, List.length_cons]
            omega
          · have := ih (fun x hx => himp x (List.mem_cons_of_mem _ hx)) h
            simp only [hy, hpy, Bool.false_eq_true, if_false, if_true, List.length_cons]
            omega
        · rw [Bool.not_eq_true] at hpy
          rcases List.mem_cons.mp hx0 with rfl | h
          · rw [hpy] at hp; exact absurd hp (by simp)
          · have := ih (fun x hx => himp x (List.mem_cons_of_mem _ hx)) h
            simp only [hy, hpy, Bool.false_eq_true, if_false]
            omega

/-- Number of folderMap ids not yet in the visited set: the measure that
bounds the calculatePath recursion in the JS (each recursive step visits a
fresh id of the map, and an already-visited or unknown id returns at
once). -/
def unvisitedCount (m : List PathFolder) (visited : List String) : Nat :=
  ((m.map (fun p => p.folder.id)).filter (fun i => !(visited.contains i))).length

theorem unvisitedCount_cons_lt (m : List PathFolder) (visited : List String)
    (folderId : String) (hmem : folderId ∈ m.map (fun p => p.folder.id))
    (hnv : ¬ folderId ∈ visited) :
    unvisitedCount m (folderId :: visited) < unvisitedCount m visited := by
  apply length_filter_lt
  · intro x _ hx
    simp at hx ⊢
    exact hx.2
  · exact hmem
  · simp [hnv]
  · simp

theorem mapGet_mem_ids (m : List PathFolder) (i : String) (p : PathFolder)
    (h : mapGet m i = some p) : i ∈ m.map (fun q => q.folder.id) := by
  unfold mapGet at h
  have hm := List.mem_of_find?_eq_some h
  have hp := List.find?_some h
  rw [beq_iff_eq] at hp
  rw [← hp]
  exact List.mem_map_of_mem _ hm

theorem calculatePath_isSome (driveId : String) :
    ∀ (fuel : Nat) (m : List PathFolder) (visited : List String) (folderId : String),
      unvisitedCount m visited < fuel →
      (calculatePath driveId fuel m visited folderId).isSome := by
  intro fuel
  induction fuel with
  | zero => intro m visited folderId h; omega
  | succ fuel ih =>
      intro m visited folderId h
      by_cases hv : folderId ∈ visited
      · simp [calculatePath, hv]
      · cases hget : mapGet m folderId with
        | none => simp [calculatePath, hv, hget]
        | some p =>
            cases hmemo : p.full_path with
            | some path => simp [calculatePath, hv, hget, hmemo]
            | none =>
                cases hpar : p.folder.parents.head? with
                | none => simp [calculatePath, hv, hget, hmemo, hpar]
                | some parentId =>
                    by_cases hpd : parentId = driveId
                    · simp [calculatePath, hv, hget, hmemo, hpar, hpd]
                    · have hlt := unvisitedCount_cons_lt m visited folderId
                        (mapGet_mem_ids m folderId p hget) hv
                      have hrec : (calculatePath driveId fuel m
                          (folderId :: visited) parentId).isSome := by
                        apply ih
                        omega
                      obtain ⟨pr, hpr⟩ := Option.isSome_iff_exists.mp hrec
                      simp [calculatePath, hv, hget, hmemo, hpar, hpd, hpr]

/-- Scenario folder A, a direct child of the drive root. -/
def folderA : ApiFolder := { id := "idA", name := "A", parents := ["ROOT"] }

/-- Scenario folder B, child of A. -/
def folderB : ApiFolder := { id := "idB", name := "B", parents := ["idA"] }

/-- Scenario folder C, child of B. -/
def folderC : ApiFolder := { id := "idC", name := "C", parents := ["idB"] }

/-- Cycle scenario folder D, whose parent pointer goes to E. -/
def folderD : ApiFolder := { id := "idD", name := "D", parents := ["idE"] }

/-- Cycle scenario folder E, whose parent pointer goes back to D. -/
def folderE : ApiFolder := { id := "idE", name := "E", parents := ["idD"] }

/-- C8: path resolution assigns /A, /A/B, /A/B/C to the chain A, B, C under
the drive root; on the parent cycle D to E to D it terminates and assigns
the deterministic fallback paths //E/D and //E (the visited-set check
truncates the cyclic ancestor to the defensive "/"); and in general a
calculatePath call with fuel exceeding the number of unvisited map ids
always returns a value, which is how the visited-set bound makes the JS
recursion terminate on every input, cyclic or not. -/
theorem C8_path_resolution :
    ((calculateFolderPaths [folderA, folderB, folderC] "ROOT").map
        (fun p => p.full_path) = [some "/A", some "/A/B", some "/A/B/C"])
    ∧ ((calculateFolderPaths [folderD, folderE] "ROOT").map
        (fun p => p.full_path) = [some "//E/D", some "//E"])
    ∧ (∀ (driveId : String) (fuel : Nat) (m : List PathFolder) (visited : List String)
        (folderId : String), unvisitedCount m visited < fuel →
        (calculatePath driveId fuel m visited folderId).isSome) := by
  exact ⟨by decide, by decide, calculatePath_isSome⟩

/-- Witness for C8 general termination at the cycle scenario map. -/
theorem C8_path_resolution_witness :
    unvisitedCount (buildFolderMap [folderD, folderE]) [] < 3
    ∧ (calculatePath "ROOT" 3 (buildFolderMap [folderD, folderE]) [] "idD").isSome :=
  ⟨by decide,
    C8_path_resolution.2.2 "ROOT" 3 (buildFolderMap [folderD, folderE]) [] "idD" (by decide)⟩

/-- Strict descendant relation through the provider's children oracle: g
lies strictly below the node with id i when it is a direct child of i or a
child of some folder below i.  This is the reachability notion of the
recursive subfolder walk. -/
inductive Below (children : String → List ApiFolder) : String → ApiFolder → Prop
  | here {i : String} {g : ApiFolder} : g ∈ children i → Below children i g
  | up {i : String} {p g : ApiFolder} : Below children i p → g ∈ children p.id →
      Below children i g

/-- Reachability from a root set of folders: g is generated by the walk
when it is a child of a root or a child of a reachable folder. -/
inductive Reach (children : String → List ApiFolder) (roots : List ApiFolder) :
    ApiFolder → Prop
  | base {f g : ApiFolder} : f ∈ roots → g ∈ children f.id → Reach children roots g
  | step {f g : ApiFolder} : Reach children roots f → g ∈ children f.id →
      Reach children roots g

theorem reach_nil (children : String → List ApiFolder) (g : ApiFolder) :
    ¬ Reach children [] g := by
  intro h
  induction h with
  | base hf _ => simp at hf
  | step _ _ ih => exact ih

theorem below_trans (children : String → List ApiFolder) {j : String} {c r : ApiFolder}
    (hc : c ∈ children j) (h : Below children c.id r) : Below children j r := by
  induction h with
  | here hg => exact Below.up (Below.here hc) hg
  | up _ hg ih => exact Below.up ih hg

theorem reach_split (children : String → List ApiFolder) (roots : List ApiFolder)
    (g : ApiFolder) :
    Reach children roots g ↔ ∃ r ∈ roots, Below children r.id g := by
  constructor
  · intro h
    induction h with
    | base hf hg => exact ⟨_, hf, Below.here hg⟩
    | step _ hg ih =>
        obtain ⟨r, hrr, hb⟩ := ih
        exact ⟨r, hrr, Below.up hb hg⟩
  · rintro ⟨r, hr, hb⟩
    induction hb with
    | here hg => exact Reach.base hr hg
    | up _ hg ih => exact Reach.step ih hg

theorem reach_mono (children : String → List ApiFolder)
    {roots roots' : List ApiFolder} (hsub : ∀ r ∈ roots, r ∈ roots')
    {g : ApiFolder} (h : Reach children roots g) : Reach children roots' g := by
  induction h with
  | base hf hg => exact Reach.base (hsub _ hf) hg
  | step _ hg ih => exact Reach.step ih hg

theorem below_iff (children : String → List ApiFolder) (i : String) (g : ApiFolder) :
    Below children i g ↔ g ∈ children i ∨ Reach children (children i) g := by
  constructor
  · intro h
    induction h with
    | here hg => exact Or.inl hg
    | up _ hg ih =>
        rcases ih with hp | hp
        · exact Or.inr (Reach.base hp hg)
        · exact Or.inr (Reach.step hp hg)
  · rintro (hg | hr)
    · exact Below.here hg
    · obtain ⟨c, hc, hb⟩ := (reach_split children (children i) g).mp hr
      exact below_trans children hc hb

theorem reach_cons_iff (children : String → List ApiFolder) (f : ApiFolder)
    (rest : List ApiFolder) (g : ApiFolder) :
    Reach children (f :: rest) g
      ↔ (g ∈ children f.id ∨ Reach children (children f.id) g)
        ∨ Reach children rest g := by
  rw [reach_split, ← below_iff]
  constructor
  · rintro ⟨r, hr, hb⟩
    rcases List.mem_cons.mp hr with rfl | hr'
    · exact Or.inl hb
    · exact Or.inr ((reach_split children rest g).mpr ⟨r, hr', hb⟩)
  · rintro (hb | hrest)
    · exact ⟨f, List.mem_cons_self _ _, hb⟩
    · obtain ⟨r, hr, hb⟩ := (reach_split children rest g).mp hrest
      exact ⟨r, List.mem_cons_of_mem _ hr, hb⟩

theorem children_mem_iff {children : String → List ApiFolder} {allF : List ApiFolder}
    (hch : ∀ i, children i = allF.filter (fun f => f.parents.head? == some i))
    {i : String} {g : ApiFolder} :
    g ∈ children i ↔ g ∈ allF ∧ g.parents.head? = some i := by
  rw [hch]
  simp [List.mem_filter]

theorem parent_uniq {children : String → List ApiFolder} {allF : List ApiFolder}
    (hch : ∀ i, children i = allF.filter (fun f => f.parents.head? == some i))
    {i j : String} {g : ApiFolder} (hi : g ∈ children i) (hj : g ∈ children j) :
    i = j := by
  have h1 := (children_mem_iff hch).mp hi
  have h2 := (children_mem_iff hch).mp hj
  rw [h1.2] at h2
  exact Option.some.inj h2.2

theorem child_allF {children : String → List ApiFolder} {allF : List ApiFolder}
    (hch : ∀ i, children i = allF.filter (fun f => f.parents.head? == some i))
    {i : String} {g : ApiFolder} (hg : g ∈ children i) : g ∈ allF :=
  ((children_mem_iff hch).mp hg).1

theorem below_allF {children : String → List ApiFolder} {allF : List ApiFolder}
    (hch : ∀ i, children i = allF.filter (fun f => f.parents.head? == some i))
    {i : String} {g : ApiFolder} (h : Below children i g) : g ∈ allF := by
  induction h with
  | here hg => exact child_allF hch hg
  | up _ hg _ => exact child_allF hch hg

theorem rank_child {children : String → List ApiFolder} {allF : List ApiFolder}
    {rank : String → Nat}
    (hch : ∀ i, children i = allF.filter (fun f => f.parents.head? == some i))
    (hrank : ∀ f ∈ allF, ∀ p, f.parents.head? = some p → rank f.id < rank p)
    {i : String} {g : ApiFolder} (hg : g ∈ children i) : rank g.id < rank i := by
  have h := (children_mem_iff hch).mp hg
  exact hrank g h.1 i h.2

theorem rank_below {children : String → List ApiFolder} {allF : List ApiFolder}
    {rank : String → Nat}
    (hch : ∀ i, children i = allF.filter (fun f => f.parents.head? == some i))
    (hrank : ∀ f ∈ allF, ∀ p, f.parents.head? = some p → rank f.id < rank p)
    {i : String} {g : ApiFolder} (h : Below children i g) : rank g.id < rank i := by
  induction h with
  | here hg => exact rank_child hch hrank hg
  | up _ hg ih =>
      have := rank_child hch hrank hg
      omega

theorem id_inj {allF : List ApiFolder} (hids : (allF.map (fun f => f.id)).Nodup)
    {a b : ApiFolder} (ha : a ∈ allF) (hb : b ∈ allF) (hid : a.id = b.id) : a = b :=
  List.inj_on_of_nodup_map hids ha hb hid

theorem children_ids_nodup {children : String → List ApiFolder} {allF : List ApiFolder}
    (hch : ∀ i, children i = allF.filter (fun f => f.parents.head? == some i))
    (hids : (allF.map (fun f => f.id)).Nodup) (i : String) :
    ((children i).map (fun f => f.id)).Nodup := by
  rw [hch]
  exact ((List.filter_sublist _).map _).nodup hids

theorem no_self_reach {children : String → List ApiFolder} {allF : List ApiFolder}
    {rank : String → Nat}
    (hch : ∀ i, children i = allF.filter (fun f => f.parents.head? == some i))
    (hrank : ∀ f ∈ allF, ∀ p, f.parents.head? = some p → rank f.id < rank p)
    (i : String) : ∀ c ∈ children i, ¬ Reach children (children i) c := by
  intro c hc hreach
  obtain ⟨c', hc', hb⟩ := (reach_split children (children i) c).mp hreach
  cases hb with
  | here hg =>
      have hEq : c'.id = i := parent_uniq hch hg hc
      have h1 := rank_child hch hrank hc'
      rw [hEq] at h1
      omega
  | up hp hg =>
      have hEq := parent_uniq hch hg hc
      have h1 := rank_below hch hrank hp
      have h2 := rank_child hch hrank hc'
      rw [hEq] at h1
      omega

theorem chain_linear {children : String → List ApiFolder} {allF : List ApiFolder}
    (hch : ∀ i, children i = allF.filter (fun f => f.parents.head? == some i))
    (hids : (allF.map (fun f => f.id)).Nodup)
    {a : String} {g : ApiFolder} (ha : Below children a g) :
    ∀ b : String, Below children b g →
      a = b ∨ (∃ fa, fa.id = a ∧ Below children b fa)
        ∨ (∃ fb, fb.id = b ∧ Below children a fb) := by
  induction ha with
  | @here gg hg =>
      intro b hb
      cases hb with
      | here hg' => exact Or.inl (parent_uniq hch hg hg')
      | @up p _ hp hg' =>
          exact Or.inr (Or.inl ⟨p, (parent_uniq hch hg hg').symm, hp⟩)
  | @up p gg hp hg ih =>
      intro b hb
      cases hb with
      | here hg' =>
          exact Or.inr (Or.inr ⟨p, (parent_uniq hch hg' hg).symm, hp⟩)
      | @up p' _ hp' hg' =>
          have hEq : p.id = p'.id := parent_uniq hch hg hg'
          have hpp : p = p' :=
            id_inj hids (below_allF hch hp) (below_allF hch hp') hEq
          subst hpp
          exact ih b hp'

theorem head_rest_disjoint {children : String → List ApiFolder} {allF : List ApiFolder}
    (hch : ∀ i, children i = allF.filter (fun f => f.parents.head? == some i))
    (hids : (allF.map (fun f => f.id)).Nodup)
    (f : ApiFolder) (rest : List ApiFolder) (hfall : f ∈ allF)
    (hnodup : (((f :: rest)).map (fun x => x.id)).Nodup)
    (hgood : ∀ r ∈ f :: rest, ¬ Reach children (f :: rest) r)
    (g : ApiFolder) (hg : g ∈ children f.id) (hr : Reach children rest g) : False := by
  obtain ⟨r, hrrest, hb⟩ := (reach_split children rest g).mp hr
  cases hb with
  | here hgr =>
      have hEq : r.id = f.id := parent_uniq hch hgr hg
      rw [List.map_cons, List.nodup_cons] at hnodup
      exact hnodup.1 (hEq ▸ List.mem_map_of_mem _ hrrest)
  | @up p _ hp hgr =>
      have hEq : p.id = f.id := parent_uniq hch hgr hg
      have hpf : p = f := id_inj hids (below_allF hch hp) hfall hEq
      rw [hpf] at hp
      have hreach : Reach children (f :: rest) f :=
        reach_mono children (fun x hx => List.mem_cons_of_mem _ hx)
          ((reach_split children rest f).mpr ⟨r, hrrest, hp⟩)
      exact hgood f (List.mem_cons_self _ _) hreach

theorem deep_rest_disjoint {children : String → List ApiFolder} {allF : List ApiFolder}
    (hch : ∀ i, children i = allF.filter (fun f => f.parents.head? == some i))
    (hids : (allF.map (fun f => f.id)).Nodup)
    (f : ApiFolder) (rest : List ApiFolder) (hfall : f ∈ allF)
    (hsub : ∀ r ∈ f :: rest, r ∈ allF)
    (hnodup : (((f :: rest)).map (fun x => x.id)).Nodup)
    (hgood : ∀ r ∈ f :: rest, ¬ Reach children (f :: rest) r)
    (g : ApiFolder) (h1 : Reach children (children f.id) g)
    (h2 : Reach children rest g) : False := by
  obtain ⟨c, hc, hbc⟩ := (reach_split children (children f.id) g).mp h1
  obtain ⟨r, hrr, hbr⟩ := (reach_split children rest g).mp h2
  rcases chain_linear hch hids hbc r.id hbr with hEq | ⟨fa, hfa, hfab⟩ | ⟨fb, hfb, hfba⟩
  · have hcall : c ∈ allF := child_allF hch hc
    have hrall : r ∈ allF := hsub r (List.mem_cons_of_mem _ hrr)
    have hcr : c = r := id_inj hids hcall hrall hEq
    rw [hcr] at hc
    exact hgood r (List.mem_cons_of_mem _ hrr)
      (Reach.base (List.mem_cons_self _ _) hc)
  · have hfac : fa = c :=
      id_inj hids (below_allF hch hfab) (child_allF hch hc) hfa
    rw [hfac] at hfab
    exact head_rest_disjoint hch hids f rest hfall hnodup hgood c hc
      ((reach_split children rest c).mpr ⟨r, hrr, hfab⟩)
  · have hfbr : fb = r :=
      id_inj hids (below_allF hch hfba) (hsub r (List.mem_cons_of_mem _ hrr)) hfb
    rw [hfbr] at hfba
    have hreach : Reach children (f :: rest) r :=
      (reach_split children (f :: rest) r).mpr
        ⟨f, List.mem_cons_self _ _, below_trans children hc hfba⟩
    exact hgood r (List.mem_cons_of_mem _ hrr) hreach

theorem getSubfolders_cons_zero (children : String → List ApiFolder) (f : ApiFolder)
    (rest : List ApiFolder) :
    getSubfoldersRecursively children 0 (f :: rest)
      = (if (children f.id).isEmpty then some [] else none).bind
          (fun deeper => (getSubfoldersRecursively children 0 rest).bind
            (fun restAll => some (children f.id ++ deeper ++ restAll))) := by
  rw [getSubfoldersRecursively]

theorem getSubfolders_cons_succ (children : String → List ApiFolder) (fuel : Nat)
    (f : ApiFolder) (rest : List ApiFolder) :
    getSubfoldersRecursively children (fuel + 1) (f :: rest)
      = (if (children f.id).isEmpty then some []
         else getSubfoldersRecursively children fuel (children f.id)).bind
          (fun deeper => (getSubfoldersRecursively children (fuel + 1) rest).bind
            (fun restAll => some (children f.id ++ deeper ++ restAll))) := by
  rw [getSubfoldersRecursively]

theorem getSubfolders_terminates (children : String → List ApiFolder) (rank : String → Nat)
    (hrankc : ∀ (i : String), ∀ g ∈ children i, rank g.id < rank i) :
    ∀ (fuel : Nat) (roots : List ApiFolder), (∀ r ∈ roots, rank r.id < fuel) →
      (getSubfoldersRecursively children fuel roots).isSome := by
  intro fuel
  induction fuel using Nat.strong_induction_on with
  | _ fuel ihf =>
      intro roots
      induction roots with
      | nil =>
          intro _
          rw [getSubfoldersRecursively]
          rfl
      | cons f rest ihr =>
          intro h
          have hrest := ihr (fun r hr => h r (List.mem_cons_of_mem _ hr))
          obtain ⟨rl, hrl⟩ := Option.isSome_iff_exists.mp hrest
          cases fuel with
          | zero => exact absurd (h f (List.mem_cons_self _ _)) (Nat.not_lt_zero _)
          | succ fuel' =>
              have hdeep : (if (children f.id).isEmpty then some ([] : List ApiFolder)
                  else getSubfoldersRecursively children fuel' (children f.id)).isSome := by
                by_cases he : (children f.id).isEmpty
                · rw [if_pos he]; rfl
                · rw [if_neg he]
                  apply ihf fuel' (Nat.lt_succ_self _)
                  intro s hs
                  have h1 := hrankc f.id s hs
                  have h2 := h f (List.mem_cons_self _ _)
                  omega
              obtain ⟨dl, hdl⟩ := Option.isSome_iff_exists.mp hdeep
              rw [getSubfolders_cons_succ, hdl, Option.some_bind, hrl, Option.some_bind]
              rfl

theorem getSubfolders_mem (children : String → List ApiFolder) :
    ∀ (fuel : Nat) (roots L : List ApiFolder),
      getSubfoldersRecursively children fuel roots = some L →
      ∀ g, g ∈ L ↔ Reach children roots g := by
  intro fuel
  induction fuel using Nat.strong_induction_on with
  | _ fuel ihf =>
      intro roots
      induction roots with
      | nil =>
          intro L hL g
          rw [getSubfoldersRecursively] at hL
          have hL' : L = [] := (Option.some.inj hL).symm
          subst hL'
          simp only [List.not_mem_nil, false_iff]
          exact reach_nil children g
      | cons f rest ihr =>
          intro L hL g
          have hdec : ∃ dl rl, (∀ x, x ∈ dl ↔ Reach children (children f.id) x)
              ∧ getSubfoldersRecursively children fuel rest = some rl
              ∧ L = children f.id ++ dl ++ rl := by
            cases fuel with
            | zero =>
                rw [getSubfolders_cons_zero, Option.bind_eq_some] at hL
                obtain ⟨dl, hdl, hL2⟩ := hL
                rw [Option.bind_eq_some] at hL2
                obtain ⟨rl, hrl, hL3⟩ := hL2
                refine ⟨dl, rl, ?_, hrl, (Option.some.inj hL3).symm⟩
                by_cases he : (children f.id).isEmpty
                · rw [if_pos he] at hdl
                  have hdl' : dl = [] := (Option.some.inj hdl).symm
                  subst hdl'
                  have hce : children f.id = [] := List.isEmpty_iff.mp he
                  intro x
                  simp only [List.not_mem_nil, false_iff]
                  rw [hce]
                  exact reach_nil children x
                · rw [if_neg he] at hdl
                  exact absurd hdl (by simp)
            | succ fuel' =>
                rw [getSubfolders_cons_succ, Option.bind_eq_some] at hL
                obtain ⟨dl, hdl, hL2⟩ := hL
                rw [Option.bind_eq_some] at hL2
                obtain ⟨rl, hrl, hL3⟩ := hL2
                refine ⟨dl, rl, ?_, hrl, (Option.some.inj hL3).symm⟩
                by_cases he : (children f.id).isEmpty
                · rw [if_pos he] at hdl
                  have hdl' : dl = [] := (Option.some.inj hdl).symm
                  subst hdl'
                  have hce : children f.id = [] := List.isEmpty_iff.mp he
                  intro x
                  simp only [List.not_mem_nil, false_iff]
                  rw [hce]
                  exact reach_nil children x
                · rw [if_neg he] at hdl
                  exact ihf fuel' (Nat.lt_succ_self _) (children f.id) dl hdl
          obtain ⟨dl, rl, hdlmem, hrl, hLeq⟩ := hdec
          subst hLeq
          have hrlmem := ihr rl hrl g
          rw [reach_cons_iff]
          simp only [List.mem_append]
          rw [hdlmem g, hrlmem]

/-- The two folders of the reference cycle: A lists B as a child and B
lists A as a child. -/
def cycFolderA : ApiFolder := { id := "A", name := "A", parents := ["B"] }

/-- Partner of cycFolderA in the reference cycle. -/
def cycFolderB : ApiFolder := { id := "B", name := "B", parents := ["A"] }

/-- A provider whose children query answers the reference cycle. -/
def cycChildren : String → List ApiFolder :=
  fun i => if i = "A" then [cycFolderB] else if i = "B" then [cycFolderA] else []

theorem cyc_walk_none : ∀ n,
    getSubfoldersRecursively cycChildren n [cycFolderA] = none
    ∧ getSubfoldersRecursively cycChildren n [cycFolderB] = none := by
  intro n
  induction n with
  | zero =>
      constructor <;>
      · rw [getSubfolders_cons_zero]
        simp [cycChildren, cycFolderA, cycFolderB]
  | succ n ih =>
      constructor
      · rw [getSubfolders_cons_succ]
        have h1 : cycChildren cycFolderA.id = [cycFolderB] := rfl
        rw [h1]
        simp [ih.2]
      · rw [getSubfolders_cons_succ]
        have h1 : cycChildren cycFolderB.id = [cycFolderA] := rfl
        rw [h1]
        simp [ih.1]

theorem getSubfolders_nodup {children : String → List ApiFolder} {allF : List ApiFolder}
    {rank : String → Nat}
    (hch : ∀ i, children i = allF.filter (fun f => f.parents.head? == some i))
    (hids : (allF.map (fun f => f.id)).Nodup)
    (hrank : ∀ f ∈ allF, ∀ p, f.parents.head? = some p → rank f.id < rank p) :
    ∀ (fuel : Nat) (roots L : List ApiFolder),
      getSubfoldersRecursively children fuel roots = some L →
      (∀ r ∈ roots, r ∈ allF) →
      ((roots.map (fun f => f.id)).Nodup) →
      (∀ r ∈ roots, ¬ Reach children roots r) →
      L.Nodup := by
  intro fuel
  induction fuel using Nat.strong_induction_on with
  | _ fuel ihf =>
      intro roots
      induction roots with
      | nil =>
          intro L hL _ _ _
          rw [getSubfoldersRecursively] at hL
          have hL' : L = [] := (Option.some.inj hL).symm
          subst hL'
          exact List.nodup_nil
      | cons f rest ihr =>
          intro L hL hsub hnodup hgood
          have hdec : ∃ dl rl,
              dl.Nodup
              ∧ (∀ x, x ∈ dl ↔ Reach children (children f.id) x)
              ∧ getSubfoldersRecursively children fuel rest = some rl
              ∧ L = children f.id ++ dl ++ rl := by
            cases fuel with
            | zero =>
                rw [getSubfolders_cons_zero, Option.bind_eq_some] at hL
                obtain ⟨dl, hdl, hL2⟩ := hL
                rw [Option.bind_eq_some] at hL2
                obtain ⟨rl, hrl, hL3⟩ := hL2
                by_cases he : (children f.id).isEmpty
                · rw [if_pos he] at hdl
                  have hdl' : dl = [] := (Option.some.inj hdl).symm
                  subst hdl'
                  have hce : children f.id = [] := List.isEmpty_iff.mp he
                  refine ⟨[], rl, List.nodup_nil, ?_, hrl, (Option.some.inj hL3).symm⟩
                  intro x
                  simp only [List.not_mem_nil, false_iff]
                  rw [hce]
                  exact reach_nil children x
                · rw [if_neg he] at hdl
                  exact absurd hdl (by simp)
            | succ fuel' =>
                rw [getSubfolders_cons_succ, Option.bind_eq_some] at hL
                obtain ⟨dl, hdl, hL2⟩ := hL
                rw [Option.bind_eq_some] at hL2
                obtain ⟨rl, hrl, hL3⟩ := hL2
                by_cases he : (children f.id).isEmpty
                · rw [if_pos he] at hdl
                  have hdl' : dl = [] := (Option.some.inj hdl).symm
                  subst hdl'
                  have hce : children f.id = [] := List.isEmpty_iff.mp he
                  refine ⟨[], rl, List.nodup_nil, ?_, hrl, (Option.some.inj hL3).symm⟩
                  intro x
                  simp only [List.not_mem_nil, false_iff]
                  rw [hce]
                  exact reach_nil children x
                · rw [if_neg he] at hdl
                  refine ⟨dl, rl, ?_, ?_, hrl, (Option.some.inj hL3).symm⟩
                  · exact ihf fuel' (Nat.lt_succ_self _) (children f.id) dl hdl
                      (fun r hr => child_allF hch hr)
                      (children_ids_nodup hch hids f.id)
                      (no_self_reach hch hrank f.id)
                  · exact getSubfolders_mem children fuel' (children f.id) dl hdl
          obtain ⟨dl, rl, hdlN, hdlmem, hrl, hLeq⟩ := hdec
          subst hLeq
          have hnodupTail : (rest.map (fun x => x.id)).Nodup := by
            have h' := hnodup
            rw [List.map_cons, List.nodup_cons] at h'
            exact h'.2
          have hrlN : rl.Nodup := ihr rl hrl
            (fun r hr => hsub r (List.mem_cons_of_mem _ hr))
            hnodupTail
            (fun r hr hreach => hgood r (List.mem_cons_of_mem _ hr)
              (reach_mono children (fun x hx => List.mem_cons_of_mem _ hx) hreach))
          have hrlmem := getSubfolders_mem children fuel rest rl hrl
          have hsubsN : (children f.id).Nodup :=
            List.Nodup.of_map _ (children_ids_nodup hch hids f.id)
          have hfall : f ∈ allF := hsub f (List.mem_cons_self _ _)
          apply List.Nodup.append
          · apply List.Nodup.append hsubsN hdlN
            intro g hg hgdl
            exact no_self_reach hch hrank f.id g hg ((hdlmem g).mp hgdl)
          · exact hrlN
          · intro g hg hgrl
            have hreach : Reach children rest g := (hrlmem g).mp hgrl
            rcases List.mem_append.mp hg with hg1 | hg2
            · exact head_rest_disjoint hch hids f rest hfall hnodup hgood g hg1 hreach
            · exact deep_rest_disjoint hch hids f rest hfall hsub hnodup hgood g
                ((hdlmem g).mp hg2) hreach

theorem mapSetPath_ids (m : List PathFolder) (i path : String) :
    (mapSetPath m i path).map (fun p => p.folder.id) = m.map (fun p => p.folder.id) := by
  unfold mapSetPath
  rw [List.map_map]
  apply List.map_congr_left
  intro p _
  by_cases h : p.folder.id = i <;> simp [h]

theorem calculatePath_ids (driveId : String) :
    ∀ (fuel : Nat) (m : List PathFolder) (visited : List String) (folderId : String)
      (res : String × List PathFolder),
      calculatePath driveId fuel m visited folderId = some res →
      res.2.map (fun p => p.folder.id) = m.map (fun p => p.folder.id) := by
  intro fuel
  induction fuel with
  | zero => intro m visited folderId res h; simp [calculatePath] at h
  | succ fuel ih =>
      intro m visited folderId res h
      by_cases hv : folderId ∈ visited
      · simp [calculatePath, hv] at h
        rw [← h]
      · cases hget : mapGet m folderId with
        | none =>
            simp [calculatePath, hv, hget] at h
            rw [← h]
        | some p =>
            cases hmemo : p.full_path with
            | some path =>
                simp [calculatePath, hv, hget, hmemo] at h
                rw [← h]
            | none =>
                cases hpar : p.folder.parents.head? with
                | none =>
                    simp [calculatePath, hv, hget, hmemo, hpar] at h
                    rw [← h, mapSetPath_ids]
                | some parentId =>
                    by_cases hpd : parentId = driveId
                    · simp [calculatePath, hv, hget, hmemo, hpar, hpd] at h
                      rw [← h, mapSetPath_ids]
                    · cases hrec : calculatePath driveId fuel m (folderId :: visited)
                          parentId with
                      | none => simp [calculatePath, hv, hget, hmemo, hpar, hpd, hrec] at h
                      | some pr =>
                          simp [calculatePath, hv, hget, hmemo, hpar, hpd, hrec] at h
                          rw [← h, mapSetPath_ids]
                          exact ih m (folderId :: visited) parentId pr hrec

theorem foldl_mapSet_ids : ∀ (fs : List ApiFolder) (m0 : List PathFolder),
    (∀ f ∈ fs, ¬ f.id ∈ m0.map (fun p => p.folder.id)) →
    ((fs.map (fun f => f.id)).Nodup) →
    (fs.foldl mapSet m0).map (fun p => p.folder.id)
      = m0.map (fun p => p.folder.id) ++ fs.map (fun f => f.id) := by
  intro fs
  induction fs with
  | nil => intro m0 _ _; simp
  | cons f fs ih =>
      intro m0 hdisj hnodup
      rw [List.foldl_cons]
      have happend : mapSet m0 f = m0 ++ [{ folder := f, full_path := none }] := by
        unfold mapSet
        rw [if_neg]
        intro hc
        rw [List.any_eq_true] at hc
        obtain ⟨p, hp, hpid⟩ := hc
        rw [beq_iff_eq] at hpid
        exact hdisj f (List.mem_cons_self _ _) (hpid ▸ List.mem_map_of_mem _ hp)
      rw [happend]
      rw [List.map_cons, List.nodup_cons] at hnodup
      have hdisj' : ∀ g ∈ fs,
          ¬ g.id ∈ (m0 ++ [({ folder := f, full_path := none } : PathFolder)]).map
            (fun p => p.folder.id) := by
        intro g hg hgmem
        rw [List.map_append, List.mem_append] at hgmem
        rcases hgmem with h1 | h1
        · exact hdisj g (List.mem_cons_of_mem _ hg) h1
        · simp at h1
          exact hnodup.1 (h1 ▸ List.mem_map_of_mem _ hg)
      rw [ih (m0 ++ [({ folder := f, full_path := none } : PathFolder)]) hdisj' hnodup.2]
      simp

theorem calculateFolderPaths_ids (fs : List ApiFolder) (driveId : String)
    (hnodup : (fs.map (fun f => f.id)).Nodup) :
    (calculateFolderPaths fs driveId).map (fun p => p.folder.id)
      = fs.map (fun f => f.id) := by
  unfold calculateFolderPaths
  have hstep : ∀ (gs : List ApiFolder) (m : List PathFolder),
      ((gs.foldl (fun m f =>
          match calculatePath driveId (fs.length + 1) m [] f.id with
          | some pr => pr.2
          | none => m) m).map (fun p => p.folder.id)) = m.map (fun p => p.folder.id) := by
    intro gs
    induction gs with
    | nil => intro m; rfl
    | cons g gs ih =>
        intro m
        rw [List.foldl_cons, ih]
        cases h : calculatePath driveId (fs.length + 1) m [] g.id with
        | none => rfl
        | some pr => exact calculatePath_ids driveId _ m [] g.id pr h
  rw [hstep fs (buildFolderMap fs)]
  unfold buildFolderMap
  have h := foldl_mapSet_ids fs [] (by simp) hnodup
  simpa using h

/-- C7 counterexample: when the provider's parent references contain a
reference cycle (A lists B as child, B lists A), the recursive subfolder
walk does not terminate: no recursion depth returns a value, so the JS
recursion runs forever.  getSubfoldersRecursively has no visited set. -/
theorem C7_counterexample :
    (¬ SubfoldersTerminate cycChildren [cycFolderA])
    ∧ cycFolderB ∈ cycChildren cycFolderA.id
    ∧ cycFolderA ∈ cycChildren cycFolderB.id := by
  refine ⟨?_, by decide, by decide⟩
  rintro ⟨fuel, hf⟩
  rw [(cyc_walk_none fuel).1] at hf
  simp at hf

/-- C7 amended: over an acyclic folder table — the provider answers the
children query over a finite table with unique ids whose parent edges
admit a strictly decreasing rank — the recursive walk terminates (rank of
the drive suffices as recursion depth) and the concatenation of the root
children with the walk result contains every folder strictly below the
drive exactly once (it is duplicate-free and its members are exactly the
Below-reachable folders); the returned, path-annotated list carries
exactly those folder ids.  On a reference cycle, however, the walk does
not terminate at any depth: the defensive cycle guard claimed by the spec
does not exist in getSubfoldersRecursively. -/
theorem C7_folder_walk :
    (∀ (children : String → List ApiFolder) (allF : List ApiFolder) (rank : String → Nat)
        (driveId : String),
      (∀ i, children i = allF.filter (fun f => f.parents.head? == some i)) →
      ((allF.map (fun f => f.id)).Nodup) →
      (∀ f ∈ allF, ∀ p, f.parents.head? = some p → rank f.id < rank p) →
      ((getSubfoldersRecursively children (rank driveId) (children driveId)).isSome
        ∧ ∀ subs, getSubfoldersRecursively children (rank driveId) (children driveId)
            = some subs →
          (children driveId ++ subs).Nodup
          ∧ (∀ g, g ∈ children driveId ++ subs ↔ Below children driveId g)
          ∧ getFoldersFromDrive children driveId (rank driveId)
              = some (calculateFolderPaths (children driveId ++ subs) driveId)
          ∧ (calculateFolderPaths (children driveId ++ subs) driveId).map
              (fun p => p.folder.id) = (children driveId ++ subs).map (fun f => f.id)))
    ∧ (∀ fuel, getSubfoldersRecursively cycChildren fuel [cycFolderA] = none) := by
  constructor
  · intro children allF rank driveId hch hids hrank
    have hrankc : ∀ (i : String), ∀ g ∈ children i, rank g.id < rank i :=
      fun i g hg => rank_child hch hrank hg
    constructor
    · exact getSubfolders_terminates children rank hrankc (rank driveId) (children driveId)
        (fun r hr => hrankc driveId r hr)
    · intro subs hsubs
      have hmem := getSubfolders_mem children (rank driveId) (children driveId) subs hsubs
      have hN : subs.Nodup := getSubfolders_nodup hch hids hrank (rank driveId)
          (children driveId) subs hsubs
          (fun r hr => child_allF hch hr)
          (children_ids_nodup hch hids driveId)
          (no_self_reach hch hrank driveId)
      have htotN : (children driveId ++ subs).Nodup := by
        apply List.Nodup.append
          (List.Nodup.of_map _ (children_ids_nodup hch hids driveId)) hN
        intro g hg hgsubs
        exact no_self_reach hch hrank driveId g hg ((hmem g).mp hgsubs)
      have htotmem : ∀ g, g ∈ children driveId ++ subs ↔ Below children driveId g := by
        intro g
        rw [List.mem_append, hmem g, below_iff]
      have hallmem : ∀ g ∈ children driveId ++ subs, g ∈ allF := by
        intro g hg
        rcases List.mem_append.mp hg with h1 | h1
        · exact child_allF hch h1
        · obtain ⟨r, _, hb⟩ :=
            (reach_split children (children driveId) g).mp ((hmem g).mp h1)
          exact below_allF hch hb
      have hidsN : ((children driveId ++ subs).map (fun f => f.id)).Nodup :=
        List.Nodup.map_on
          (fun x hx y hy hxy => id_inj hids (hallmem x hx) (hallmem y hy) hxy) htotN
      refine ⟨htotN, htotmem, ?_, calculateFolderPaths_ids _ driveId hidsN⟩
      unfold getFoldersFromDrive
      simp only [hsubs]
  · exact fun fuel => (cyc_walk_none fuel).1

/-- Folder table for the C7 witness: the acyclic chain A, B, C. -/
def allFEx : List ApiFolder := [folderA, folderB, folderC]

/-- Children oracle of the witness provider: the filter query over the
table. -/
def childrenEx : String → List ApiFolder :=
  fun i => allFEx.filter (fun f => f.parents.head? == some i)

/-- Rank function witnessing acyclicity of the witness chain. -/
def rankEx : String → Nat :=
  fun i => if i = "ROOT" then 3 else if i = "idA" then 2 else if i = "idB" then 1 else 0

/-- Witness for C7 amended at the concrete acyclic chain. -/
theorem C7_folder_walk_witness :
    ((allFEx.map (fun f => f.id)).Nodup)
    ∧ (getSubfoldersRecursively childrenEx (rankEx "ROOT") (childrenEx "ROOT")).isSome :=
  ⟨by decide,
    (C7_folder_walk.1 childrenEx allFEx rankEx "ROOT" (fun i => rfl) (by decide)
      (by
        intro f hf p hp
        fin_cases hf <;>
        · simp only [folderA, folderB, folderC] at hp
          simp at hp
          subst hp
          decide)).1⟩

theorem folderUpsertData_driveId (e : Option FolderRec) (driveId : String) (f : ApiFolder)
    (n : Nat) : (folderUpsertData e driveId f n).driveId = driveId := by
  cases e with
  | none => rfl
  | some e =>
      simp only [folderUpsertData]
      split <;> rfl

theorem mem_setKeyed_ne {α : Type} (key : α → String) (m : List α) (x r : α)
    (h : r ∈ m) (hne : key r ≠ key x) : r ∈ setKeyed key m x := by
  unfold setKeyed
  split
  · rw [List.mem_map]
    exact ⟨r, h, by simp [hne]⟩
  · exact List.mem_append_left _ h

theorem mem_foldl_setKeyed_preserve {α β : Type} (key : α → String) (f : β → α) :
    ∀ (ds : List β) (m : List α) (r : α), r ∈ m → (∀ d ∈ ds, key (f d) ≠ key r) →
      r ∈ ds.foldl (fun m d => setKeyed key m (f d)) m := by
  intro ds
  induction ds with
  | nil => intro m r h _; exact h
  | cons d ds ih =>
      intro m r h hne
      rw [List.foldl_cons]
      exact ih _ r
        (mem_setKeyed_ne key m (f d) r h (fun hc => hne d (List.mem_cons_self _ _) hc.symm))
        (fun d' hd' => hne d' (List.mem_cons_of_mem _ hd'))

theorem syncFolders_exists (driveId : String) (fs : List ApiFolder)
    (m : List FolderRec) (now : Nat) (hnodup : (fs.map (fun f => f.id)).Nodup)
    (f : ApiFolder) (hf : f ∈ fs) :
    ∃ rec ∈ (syncFoldersForDrive driveId fs m now).mirror,
      rec.id = f.id ∧ rec.driveId = driveId := by
  have hid : f.id ∈ (syncFoldersForDrive driveId fs m now).mirror.map (fun r => r.id) := by
    rw [syncFoldersForDrive_mirror_def, mem_map_key_foldl_setKeyed (fun r => r.id)
      (fun f => folderUpsertData (findFolder m f.id) driveId f now)]
    right
    rw [List.map_congr_left (fun f _ => folderUpsertData_id (findFolder m f.id) driveId f now)]
    exact List.mem_map_of_mem _ hf
  rw [List.mem_map] at hid
  obtain ⟨rec, hrec, hrecid⟩ := hid
  refine ⟨rec, hrec, hrecid, ?_⟩
  have h := syncFoldersForDrive_lookup driveId fs m now hnodup f hf rec hrec hrecid
  rw [h, folderUpsertData_driveId]

theorem syncFolders_preserve (driveId : String) (fs : List ApiFolder)
    (m : List FolderRec) (now : Nat) (rec : FolderRec) (h : rec ∈ m)
    (hne : ∀ f ∈ fs, f.id ≠ rec.id) :
    rec ∈ (syncFoldersForDrive driveId fs m now).mirror := by
  rw [syncFoldersForDrive_mirror_def]
  apply mem_foldl_setKeyed_preserve (fun r => r.id)
    (fun f => folderUpsertData (findFolder m f.id) driveId f now) fs m rec h
  intro f hf
  rw [folderUpsertData_id]
  exact hne f hf

theorem foldFolders_reach (now : Nat) :
    ∀ (bundles : List DriveBundle) (fm : List FolderRec) (b : DriveBundle),
      b ∈ bundles → ∀ f ∈ b.folders, (b.folders.map (fun x => x.id)).Nodup →
      ((bundles.map (fun x => x.drive.id)).Nodup) →
      (∀ b' ∈ bundles, b' ≠ b → ∀ f' ∈ b'.folders, f'.id ≠ f.id) →
      ∃ rec ∈ bundles.foldl
          (fun fm b => (syncFoldersForDrive b.drive.id b.folders fm now).mirror) fm,
        rec.id = f.id ∧ rec.driveId = b.drive.id := by
  intro bundles
  induction bundles with
  | nil => intro fm b hb; simp at hb
  | cons b0 rest ih =>
      intro fm b hb f hf hnodupb hdids honce
      have hdids' : (rest.map (fun x => x.drive.id)).Nodup ∧
          ¬ b0.drive.id ∈ rest.map (fun x => x.drive.id) := by
        rw [List.map_cons, List.nodup_cons] at hdids
        exact ⟨hdids.2, hdids.1⟩
      rw [List.foldl_cons]
      rcases List.mem_cons.mp hb with rfl | hb'
      · obtain ⟨rec, hrec, hrid, hrdrive⟩ :=
          syncFolders_exists b.drive.id b.folders fm now hnodupb f hf
        refine ⟨rec, ?_, hrid, hrdrive⟩
        have hpres : ∀ (rest' : List DriveBundle) (fm' : List FolderRec), rec ∈ fm' →
            (∀ b' ∈ rest', ∀ f' ∈ b'.folders, f'.id ≠ rec.id) →
            rec ∈ rest'.foldl
              (fun fm b => (syncFoldersForDrive b.drive.id b.folders fm now).mirror) fm' := by
          intro rest'
          induction rest' with
          | nil => intro fm' h _; exact h
          | cons b1 rest1 ih1 =>
              intro fm' h hne
              rw [List.foldl_cons]
              exact ih1 _
                (syncFolders_preserve b1.drive.id b1.folders fm' now rec h
                  (fun f' hf' => hne b1 (List.mem_cons_self _ _) f' hf'))
                (fun b' hb' => hne b' (List.mem_cons_of_mem _ hb'))
        apply hpres rest _ hrec
        intro b' hb' f' hf' hc
        rw [hrid] at hc
        have hbne : b' ≠ b := by
          intro hbb
          apply hdids'.2
          rw [← hbb]
          exact List.mem_map_of_mem _ hb'
        exact honce b' (List.mem_cons_of_mem _ hb') hbne f' hf' hc
      · exact ih _ b hb' f hf hnodupb hdids'.1
          (fun b' hb'' => honce b' (List.mem_cons_of_mem _ hb''))

theorem processDrive_ok (P : Provider) (d : ApiDrive) (fs : List ApiFolder)
    (ms : List ApiManager) (h1 : P.foldersFor d.id = Except.ok fs)
    (h2 : P.managersFor d.id = Except.ok ms) :
    processDrive P d = ({ drive := d, folders := fs, managers := ms }, none) := by
  unfold processDrive
  rw [h1, h2]

theorem processDrive_folders_fail (P : Provider) (d : ApiDrive) (msg : String)
    (h1 : P.foldersFor d.id = Except.error msg) :
    processDrive P d = ({ drive := d, folders := [], managers := [] },
      some ("Error procesando unidad " ++ d.name ++ ": " ++ msg)) := by
  unfold processDrive
  rw [h1]

theorem processDrive_managers_fail (P : Provider) (d : ApiDrive) (fs : List ApiFolder)
    (msg : String) (h1 : P.foldersFor d.id = Except.ok fs)
    (h2 : P.managersFor d.id = Except.error msg) :
    processDrive P d = ({ drive := d, folders := [], managers := [] },
      some ("Error procesando unidad " ++ d.name ++ ": " ++ msg)) := by
  unfold processDrive
  rw [h1, h2]

theorem filterMap_eq_single {α β : Type} (key : α → String) (g : α → Option β)
    (l : List α) (x : α) (e : β)
    (hnodup : (l.map key).Nodup) (hx : x ∈ l) (hgx : g x = some e)
    (hothers : ∀ y ∈ l, key y ≠ key x → g y = none) :
    l.filterMap g = [e] := by
  induction l with
  | nil => simp at hx
  | cons a l ih =>
      rw [List.map_cons, List.nodup_cons] at hnodup
      rcases List.mem_cons.mp hx with rfl | hx'
      · have hrest : l.filterMap g = [] := by
          rw [List.filterMap_eq_nil_iff]
          intro y hy
          apply hothers y (List.mem_cons_of_mem _ hy)
          intro hc
          exact hnodup.1 (hc ▸ List.mem_map_of_mem _ hy)
        rw [List.filterMap_cons, hgx, hrest]
      · have ha : g a = none := by
          apply hothers a (List.mem_cons_self _ _)
          intro hc
          exact hnodup.1 (hc ▸ List.mem_map_of_mem _ hx')
        rw [List.filterMap_cons, ha]
        exact ih hnodup.2 hx'
          (fun y hy hne => hothers y (List.mem_cons_of_mem _ hy) hne)

theorem syncToFirestore_folders (bundles : List DriveBundle) (m : Mirror)
    (now freshBase : Nat) :
    (syncToFirestore bundles m now freshBase).folders
      = bundles.foldl
          (fun fm b => (syncFoldersForDrive b.drive.id b.folders fm now).mirror)
          m.folders := by
  unfold syncToFirestore
  have h : ∀ (bs : List DriveBundle) (fm : List FolderRec) (mm : List ManagerRec)
      (fr : Nat),
      (bs.foldl (fun (acc : List FolderRec × List ManagerRec × Nat) (b : DriveBundle) =>
        ((syncFoldersForDrive b.drive.id b.folders acc.1 now).mirror,
          (syncManagersForDrive b.drive.id b.drive.name b.managers acc.2.1 now
            acc.2.2).mirror,
          acc.2.2 + b.managers.length)) (fm, mm, fr)).1
        = bs.foldl (fun fm b => (syncFoldersForDrive b.drive.id b.folders fm now).mirror) fm := by
    intro bs
    induction bs with
    | nil => intro fm mm fr; rfl
    | cons b bs ih => intro fm mm fr; rw [List.foldl_cons, List.foldl_cons, ih]
  exact h bundles m.folders m.managers freshBase

theorem processDrive_drive (P : Provider) (d : ApiDrive) :
    ((processDrive P d).1).drive = d := by
  unfold processDrive
  cases h1 : P.foldersFor d.id with
  | error e => rfl
  | ok fs =>
      cases h2 : P.managersFor d.id with
      | error e => rfl
      | ok ms => rfl

/-- C9: per-drive error isolation.  If exactly one drive's folder fetch
fails (or its folder fetch succeeds and its manager fetch fails) while
every other drive fetches cleanly, the run does not abort: the failing
drive contributes an empty folder/manager bundle, the run error list is
exactly the one descriptive entry naming that drive, the run ends with
success and status completed_with_errors, and every other drive's folders
(under the id-uniqueness side conditions of a consistent provider) reach
the final mirror keyed to their drive. -/
theorem C9_per_drive_error_isolation (P : Provider) (m : Mirror)
    (now freshBase : Nat) (syncId : String) (X : ApiDrive) (msg : String)
    (hX : X ∈ P.drives)
    (hids : ((P.drives.map (fun d => d.id)).Nodup))
    (hfail : P.foldersFor X.id = Except.error msg ∨
      ((∃ fs, P.foldersFor X.id = Except.ok fs) ∧ P.managersFor X.id = Except.error msg))
    (hothers : ∀ d ∈ P.drives, d.id ≠ X.id →
      (∃ fs, P.foldersFor d.id = Except.ok fs) ∧ (∃ ms, P.managersFor d.id = Except.ok ms)) :
    ({ drive := X, folders := [], managers := [] } : DriveBundle) ∈ (performFullSync P).1
    ∧ (performSyncRun P m now freshBase syncId).stats.errors
        = ["Error procesando unidad " ++ X.name ++ ": " ++ msg]
    ∧ (performSyncRun P m now freshBase syncId).status = "completed_with_errors"
    ∧ (performSyncRun P m now freshBase syncId).success = true
    ∧ (∀ Y ∈ P.drives, Y.id ≠ X.id → ∀ fs,
        P.foldersFor Y.id = Except.ok fs → ((fs.map (fun f => f.id)).Nodup) →
        (∀ Z ∈ P.drives, Z.id ≠ Y.id → ∀ fs2, P.foldersFor Z.id = Except.ok fs2 →
          ∀ f2 ∈ fs2, ∀ f ∈ fs, f2.id ≠ f.id) →
        ∀ f ∈ fs, ∃ rec ∈ (performSyncRun P m now freshBase syncId).mirror.folders,
          rec.id = f.id ∧ rec.driveId = Y.id) := by
  have hpdX : processDrive P X = ({ drive := X, folders := [], managers := [] },
      some ("Error procesando unidad " ++ X.name ++ ": " ++ msg)) := by
    rcases hfail with h | hc
    · exact processDrive_folders_fail P X msg h
    · obtain ⟨⟨fs, hfs⟩, hms⟩ := hc
      exact processDrive_managers_fail P X fs msg hfs hms
  have hok : ∀ d ∈ P.drives, d.id ≠ X.id → ∃ fs ms,
      processDrive P d = ({ drive := d, folders := fs, managers := ms }, none) := by
    intro d hd hne
    obtain ⟨⟨fs, h1⟩, ⟨ms, h2⟩⟩ := hothers d hd hne
    exact ⟨fs, ms, processDrive_ok P d fs ms h1 h2⟩
  have hbundles : (performFullSync P).1 = P.drives.map (fun d => (processDrive P d).1) := by
    show (P.drives.map (processDrive P)).map Prod.fst = _
    rw [List.map_map]
    rfl
  have herr : (performFullSync P).2.errors
      = P.drives.filterMap (fun d => (processDrive P d).2) := by
    show (P.drives.map (processDrive P)).filterMap Prod.snd = _
    rw [List.filterMap_map]
    rfl
  have herrors : (performSyncRun P m now freshBase syncId).stats.errors
      = ["Error procesando unidad " ++ X.name ++ ": " ++ msg] := by
    show (performFullSync P).2.errors = _
    rw [herr]
    apply filterMap_eq_single (fun d => d.id) (fun d => (processDrive P d).2) P.drives X
      _ hids hX
    · rw [hpdX]
    · intro y hy hne
      obtain ⟨fs, ms, hpd⟩ := hok y hy hne
      rw [hpd]
  have hmem : ({ drive := X, folders := [], managers := [] } : DriveBundle)
      ∈ (performFullSync P).1 := by
    rw [hbundles]
    have hm := List.mem_map_of_mem (fun d => (processDrive P d).1) hX
    simpa only [hpdX] using hm
  have hstatus : (performSyncRun P m now freshBase syncId).status
      = "completed_with_errors" := by
    show (if (performSyncRun P m now freshBase syncId).stats.errors.length > 0
        then "completed_with_errors" else "completed") = "completed_with_errors"
    rw [herrors]
    simp
  refine ⟨hmem, herrors, hstatus, rfl, ?_⟩
  have hinj : ∀ a ∈ P.drives, ∀ b ∈ P.drives, a.id = b.id → a = b := by
    intro a ha b hb hab
    exact List.inj_on_of_nodup_map hids ha hb hab
  have hbids : ((performFullSync P).1.map (fun x => x.drive.id)).Nodup := by
    have h : (performFullSync P).1.map (fun x => x.drive.id)
        = P.drives.map (fun d => d.id) := by
      rw [hbundles, List.map_map]
      apply List.map_congr_left
      intro d _
      show ((processDrive P d).1).drive.id = d.id
      rw [processDrive_drive]
    rw [h]
    exact hids
  intro Y hY hneY fs hfs hfsnodup hdisj f hf
  obtain ⟨ms, hms⟩ := (hothers Y hY hneY).2
  have hpdY : processDrive P Y = ({ drive := Y, folders := fs, managers := ms }, none) :=
    processDrive_ok P Y fs ms hfs hms
  have hbY : (processDrive P Y).1 ∈ (performFullSync P).1 := by
    rw [hbundles]
    exact List.mem_map_of_mem _ hY
  have hfin : f ∈ ((processDrive P Y).1).folders := by
    rw [hpdY]
    exact hf
  have hnodupb : ((((processDrive P Y).1).folders.map (fun x => x.id)).Nodup) := by
    rw [hpdY]
    exact hfsnodup
  have honce : ∀ e ∈ (performFullSync P).1, e ≠ (processDrive P Y).1 →
      ∀ f2 ∈ e.folders, f2.id ≠ f.id := by
    intro e he hbne f2 hf2 hc
    rw [hbundles, List.mem_map] at he
    obtain ⟨Z, hZ, rfl⟩ := he
    by_cases hZY : Z.id = Y.id
    · exact hbne (congrArg (fun d => (processDrive P d).1) (hinj Z hZ Y hY hZY))
    by_cases hZX : Z.id = X.id
    · have hZeq : Z = X := hinj Z hZ X hX hZX
      subst hZeq
      rw [hpdX] at hf2
      exact List.not_mem_nil f2 hf2
    · obtain ⟨fs2, ms2, hpdZ⟩ := hok Z hZ hZX
      rw [hpdZ] at hf2
      have h2 : P.foldersFor Z.id = Except.ok fs2 := by
        obtain ⟨⟨fs3, h3⟩, h4⟩ := hothers Z hZ hZX
        have h5 := processDrive_ok P Z fs3 (Classical.choose h4) h3 (Classical.choose_spec h4)
        rw [h5] at hpdZ
        have h6 : fs3 = fs2 := congrArg (fun p => p.1.folders) hpdZ
        rw [← h6]
        exact h3
      exact hdisj Z hZ hZY fs2 h2 f2 hf2 f hf hc
  have hgoal := foldFolders_reach now (performFullSync P).1 m.folders
    ((processDrive P Y).1) hbY f hfin hnodupb hbids honce
  obtain ⟨rec, hrec, hrid, hrdrv⟩ := hgoal
  have hfold : (performSyncRun P m now freshBase syncId).mirror.folders
      = (performFullSync P).1.foldl
          (fun fm b => (syncFoldersForDrive b.drive.id b.folders fm now).mirror)
          m.folders := by
    show (syncToFirestore (performFullSync P).1 m now freshBase).folders = _
    exact syncToFirestore_folders (performFullSync P).1 m now freshBase
  refine ⟨rec, ?_, hrid, ?_⟩
  · rw [hfold]
    exact hrec
  · rw [hrdrv, processDrive_drive]

/-- The folder under the healthy drive D2 in the C9 witness scenario. -/
def folderY : ApiFolder := { id := "fY", name := "Y", parents := ["D2"] }

/-- Provider for the C9 witness: drive listing D1, D2; the folder fetch of
D1 throws, D2 fetches one folder; manager fetches all succeed empty. -/
def c9Provider : Provider :=
  { drives := [driveD1, driveD2]
    foldersFor := fun i => if i == "D2" then Except.ok [folderY] else Except.error "boom"
    managersFor := fun _ => Except.ok [] }

/-- Witness for C9 at the two-drive scenario: the run records exactly the
one D1 error, ends completed_with_errors, and the D2 folder reaches the
mirror. -/
theorem C9_per_drive_error_isolation_witness :
    (driveD1 ∈ c9Provider.drives
      ∧ ((c9Provider.drives.map (fun d => d.id)).Nodup)
      ∧ c9Provider.foldersFor driveD1.id = Except.error "boom")
    ∧ ({ drive := driveD1, folders := [], managers := [] } : DriveBundle)
        ∈ (performFullSync c9Provider).1
    ∧ (performSyncRun c9Provider { drives := [], folders := [], managers := [] } 5 0
        "s9").stats.errors
        = ["Error procesando unidad " ++ driveD1.name ++ ": " ++ "boom"]
    ∧ (performSyncRun c9Provider { drives := [], folders := [], managers := [] } 5 0
        "s9").status = "completed_with_errors"
    ∧ (∃ rec ∈ (performSyncRun c9Provider { drives := [], folders := [], managers := [] }
        5 0 "s9").mirror.folders, rec.id = folderY.id ∧ rec.driveId = driveD2.id) := by
  have h := C9_per_drive_error_isolation c9Provider
      { drives := [], folders := [], managers := [] } 5 0 "s9" driveD1 "boom"
      (by decide) (by decide) (Or.inl (by rfl))
      (by
        intro d hd hne
        have hd2 : d = driveD1 ∨ d = driveD2 := by
          have hm : d ∈ [driveD1, driveD2] := hd
          simpa using hm
        rcases hd2 with rfl | rfl
        · exact absurd rfl hne
        · exact ⟨⟨[folderY], by rfl⟩, ⟨[], by rfl⟩⟩)
  refine ⟨⟨by decide, by decide, by rfl⟩, h.1, h.2.1, h.2.2.1, ?_⟩
  apply h.2.2.2.2 driveD2 (by decide) (by decide) [folderY] (by rfl) (by decide)
  · intro Z hZ hne fs2 h2 f2 hf2 f hfm
    have hZ2 : Z = driveD1 ∨ Z = driveD2 := by
      have hm : Z ∈ [driveD1, driveD2] := hZ
      simpa using hm
    rcases hZ2 with rfl | rfl
    · exact absurd h2 (by simp [c9Provider, driveD1])
    · exact absurd rfl hne
  · exact List.mem_cons_self folderY []

end GduSync
